import Mathlib

/-!
# The LPC17xx (mbed) real-time-clock module of eLua

A shallow embedding of `src/platform/lpc17xx/mbed_rtc.c`: the register bank of
the RTC peripheral is an explicit state, the Lua entry points are functions from
an argument and a state to an outcome (the state afterwards and the error raised,
if any), and the two C library calls the module relies on (`sscanf` with the
format `"%d/%d/%d %d:%d:%d%n"` and `sprintf` with
`"%02d/%02d/%04d %02d:%02d:%02d"`) are functions on lists of characters.
-/

namespace MbedRtc

/-! ## The peripheral -/

/-- The registers of `LPC_RTC` the module touches. -/
inductive Reg
  | ILR | CCR | AMR
  | SEC | MIN | HOUR | DOM | MONTH | YEAR
  | ALSEC | ALMIN | ALHOUR | ALDOM | ALMON | ALYEAR
deriving DecidableEq, Repr

/-- The state of the hardware: the value of each RTC register, and the two
properties of the RTC interrupt line that `platform_rtc_setalarm` sets through
the interrupt controller. -/
structure LPC where
  ILR : Nat
  CCR : Nat
  AMR : Nat
  SEC : Nat
  MIN : Nat
  HOUR : Nat
  DOM : Nat
  MONTH : Nat
  YEAR : Nat
  ALSEC : Nat
  ALMIN : Nat
  ALHOUR : Nat
  ALDOM : Nat
  ALMON : Nat
  ALYEAR : Nat
  irqPending : Bool
  irqPriority : Nat
deriving DecidableEq, Repr

/-- The value a register holds. -/
def LPC.read (hw : LPC) : Reg → Nat
  | .ILR => hw.ILR
  | .CCR => hw.CCR
  | .AMR => hw.AMR
  | .SEC => hw.SEC
  | .MIN => hw.MIN
  | .HOUR => hw.HOUR
  | .DOM => hw.DOM
  | .MONTH => hw.MONTH
  | .YEAR => hw.YEAR
  | .ALSEC => hw.ALSEC
  | .ALMIN => hw.ALMIN
  | .ALHOUR => hw.ALHOUR
  | .ALDOM => hw.ALDOM
  | .ALMON => hw.ALMON
  | .ALYEAR => hw.ALYEAR

/-- The state in which register `r` holds `n` and every other one is as before. -/
def LPC.put (hw : LPC) (r : Reg) (n : Nat) : LPC :=
  match r with
  | .ILR => { hw with ILR := n }
  | .CCR => { hw with CCR := n }
  | .AMR => { hw with AMR := n }
  | .SEC => { hw with SEC := n }
  | .MIN => { hw with MIN := n }
  | .HOUR => { hw with HOUR := n }
  | .DOM => { hw with DOM := n }
  | .MONTH => { hw with MONTH := n }
  | .YEAR => { hw with YEAR := n }
  | .ALSEC => { hw with ALSEC := n }
  | .ALMIN => { hw with ALMIN := n }
  | .ALHOUR => { hw with ALHOUR := n }
  | .ALDOM => { hw with ALDOM := n }
  | .ALMON => { hw with ALMON := n }
  | .ALYEAR => { hw with ALYEAR := n }

/-- Conversion of a C `int` to an unsigned integer of `w` bits. -/
def narrow (w : Nat) (v : Int) : Nat := (v % 2 ^ w).toNat

/-- Modelled from the spec: the declared width of each register, which is in
`LPC17xx.h` and not among the sources. The field table gives 16 bits to the year
and 8 bits to the other five fields (the alarm bank has the same shape); the
control registers are taken as 8 bits wide. -/
def Reg.width : Reg → Nat
  | .YEAR => 16
  | .ALYEAR => 16
  | _ => 8

/-- Modelled from the spec: what the hardware does with a write to the interrupt
location register, which no source file describes. A flag of `ILR` is cleared by
writing a one to its bit and is left alone by a zero, which is what the comments
`Clear alarm flag` and `Clear interrupt flags` on the two `ILR |= ...` statements
rely on. -/
def ILR_write (old written : Nat) : Nat := Nat.ldiff old written

/-- The assignment `LPC_RTC->r = v` of a C `int`. -/
def LPC.assign (hw : LPC) (r : Reg) (v : Int) : LPC :=
  match r with
  | .ILR => hw.put .ILR (ILR_write hw.ILR (narrow r.width v))
  | _ => hw.put r (narrow r.width v)

/-- The statement `LPC_RTC->ILR |= m`: the register is read, or-ed with `m`, and
the result written back. -/
def LPC.ILR_or (hw : LPC) (m : Nat) : LPC :=
  hw.assign .ILR ((hw.ILR ||| m : Nat) : Int)

/-! ## Helpers and local variables -/

def mbed_datetime_names : List String := ["day", "month", "year", "hour", "min", "sec"]

def mbed_datetime_max : List Int := [31, 12, 9999, 24, 60, 60]

def mbed_datetime_min : List Int := [1, 1, 0, 0, 0, 0]

def mbed_datetime_regs : List Reg := [.DOM, .MONTH, .YEAR, .HOUR, .MIN, .SEC]

/-! ## C LIB -/

/-- The six values `platform_rtc_get` stores through its pointers, in the order
of its parameters: day, month, year, hour, min, sec. -/
def platform_rtc_get (hw : LPC) : List Int :=
  [(hw.DOM : Int), hw.MONTH, hw.YEAR, hw.HOUR, hw.MIN, hw.SEC]

/-- The register writes of `platform_rtc_set`, in program order. -/
def platform_rtc_set_writes (day month year hour min sec : Int) : List (Reg × Int) :=
  [(.CCR, 0),
   (.HOUR, hour), (.MIN, min), (.SEC, sec),
   (.YEAR, year), (.MONTH, month), (.DOM, day),
   (.CCR, 1 ||| 1 <<< 4)]

def platform_rtc_set (day month year hour min sec : Int) (hw : LPC) : LPC :=
  (platform_rtc_set_writes day month year hour min sec).foldl
    (fun s w => s.assign w.1 w.2) hw

/-- The register writes of `platform_rtc_setalarm` that come before the calls to
the interrupt controller, in program order. -/
def platform_rtc_setalarm_writes (day month year hour min sec : Int) : List (Reg × Int) :=
  [(.ALYEAR, year), (.ALMON, month), (.ALDOM, day),
   (.ALHOUR, hour), (.ALMIN, min), (.ALSEC, sec),
   (.AMR, 1 <<< 4 ||| 1 <<< 5)]

def platform_rtc_setalarm (day month year hour min sec : Int) (hw : LPC) : LPC :=
  let s1 := (platform_rtc_setalarm_writes day month year hour min sec).foldl
    (fun s w => s.assign w.1 w.2) hw
  -- NVIC_ClearPendingIRQ(RTC_IRQn); NVIC_SetPriority(RTC_IRQn, ((0x01<<3)|0x01));
  let s2 := { s1 with irqPending := false, irqPriority := (1 <<< 3) ||| 1 }
  s2.ILR_or ((1 <<< 0) ||| (1 <<< 1))

/-! ## The scanner: `sscanf` with `"%d/%d/%d %d:%d:%d%n"` -/

/-- The `isspace` of the C locale: space, and the controls 9 to 13. -/
def isspace (c : Char) : Bool := c.toNat = 32 || (9 ≤ c.toNat && c.toNat ≤ 13)

def isdigit (c : Char) : Bool := 48 ≤ c.toNat && c.toNat ≤ 57

def skip_space : List Char → List Char
  | [] => []
  | c :: cs => if isspace c then skip_space cs else c :: cs

/-- The longest run of decimal digits at the head of the input, accumulated onto
`acc`, and what follows it. -/
def scan_digits (acc : Nat) : List Char → Nat × List Char
  | [] => (acc, [])
  | c :: cs => if isdigit c then scan_digits (acc * 10 + (c.toNat - 48)) cs else (acc, c :: cs)

/-- A value outside the range of a 32-bit `int` is converted the way `strtol`
does it, to the nearest end of the range. -/
def clamp_int (v : Int) : Int :=
  if v > 2147483647 then 2147483647 else if v < -2147483648 then -2147483648 else v

/-- The conversion `%d`: white space is skipped, then an optional sign and at
least one decimal digit are read. -/
def scan_int (inp : List Char) : Option (Int × List Char) :=
  match skip_space inp with
  | [] => none
  | c :: cs =>
    let body := if c = '-' ∨ c = '+' then cs else c :: cs
    match body with
    | [] => none
    | b :: _ =>
      if isdigit b then
        let r := scan_digits 0 body
        some (clamp_int (if c = '-' then -(r.1 : Int) else (r.1 : Int)), r.2)
      else none

/-- An ordinary character of the format: the next input character must be it. -/
def scan_lit (ch : Char) : List Char → Option (List Char)
  | [] => none
  | c :: cs => if c = ch then some cs else none

/-- The directives of a `scanf` format that the module uses. -/
inductive Directive
  | int
  | lit (c : Char)
  | space
deriving DecidableEq, Repr

/-- One directive run on the input: the values it converts (one for `%d`, none
for the others) and the rest of the input, or `none` when it does not match. A
blank in the format matches any amount of white space, none included. -/
def Directive.step : Directive → List Char → Option (List Int × List Char)
  | .int, inp =>
    match scan_int inp with
    | none => none
    | some p => some ([p.1], p.2)
  | .lit c, inp =>
    match scan_lit c inp with
    | none => none
    | some r => some ([], r)
  | .space, inp => some ([], skip_space inp)

/-- The directives run in order; `none` as soon as one of them fails. -/
def scan_run : List Directive → List Char → Option (List Int × List Char)
  | [], inp => some ([], inp)
  | d :: ds, inp =>
    match d.step inp with
    | none => none
    | some (v, r) =>
      match scan_run ds r with
      | none => none
      | some (vs, r2) => some (v ++ vs, r2)

/-- The conversions and ordinary characters of `"%d/%d/%d %d:%d:%d%n"` before
its final `%n`. -/
def datetime_format : List Directive :=
  [.int, .lit '/', .int, .lit '/', .int, .space, .int, .lit ':', .int, .lit ':', .int]

/-- The call `sscanf( data, "%d/%d/%d %d:%d:%d%n", ..., &sz )`: `some (vals, sz)`
when it returns 6, with the six values stored and the count of characters read
that `%n` stores; `none` when it returns anything else. -/
def sscanf_datetime (data : List Char) : Option (List Int × Nat) :=
  match scan_run datetime_format data with
  | none => none
  | some (vals, rest) => some (vals, data.length - rest.length)

/-- The test `sscanf( ... ) != 6 || sz != strlen( data )` of `mbed_rtc_set` and
`mbed_rtc_setalarm`: `some` of the six values when it is false, `none` when it is
true. -/
def parse_datetime (data : List Char) : Option (List Int) :=
  match sscanf_datetime data with
  | none => none
  | some (vals, sz) => if sz ≠ data.length then none else some vals

/-! ## The formatter: `sprintf` with `"%02d/%02d/%04d %02d:%02d:%02d"` -/

def digit_char (d : Nat) : Char := Char.ofNat (48 + d)

/-- The decimal digits of `n`, least significant first; `fuel` bounds the
number of digits. -/
def decimal_rev : Nat → Nat → List Char
  | 0, _ => []
  | fuel + 1, n =>
    if n < 10 then [digit_char n] else digit_char (n % 10) :: decimal_rev fuel (n / 10)

/-- The decimal digits of `n`, most significant first. -/
def decimal (n : Nat) : List Char := (decimal_rev (n + 1) n).reverse

/-- The conversion `%0<width>d`: a minus sign for a negative value, then the
digits, with zeros in front of them up to the width. -/
def format_d (width : Nat) (v : Int) : List Char :=
  let ds := decimal v.natAbs
  if v < 0 then
    '-' :: (List.replicate (width - 1 - ds.length) '0' ++ ds)
  else
    List.replicate (width - ds.length) '0' ++ ds

def sprintf_datetime (dd mon yy hh mm ss : Int) : List Char :=
  format_d 2 dd ++ '/' :: (format_d 2 mon ++ '/' :: (format_d 4 yy ++ ' ' ::
    (format_d 2 hh ++ ':' :: (format_d 2 mm ++ ':' :: format_d 2 ss))))

/-! ## LUA Lib -/

/-- A value found in a field of a table, as far as the module can tell values
apart: `number n` is a value of type `LUA_TNUMBER` that `luaL_checkinteger`
converts to `n`; `numstr n` is a string that converts to a number, and through it
to `n`; `other` is any other value that is not nil. -/
inductive LuaValue
  | nil
  | number (n : Int)
  | numstr (n : Int)
  | other
deriving DecidableEq, Repr

/-- A table, read through `lua_getfield` and `lua_gettable`: the value under
each string key, nil for a key that is absent. -/
abbrev LuaTable := String → LuaValue

/-- The first argument of a call. `str data` is an argument for which
`lua_isstring` holds, `data` being the C string `luaL_checkstring` returns for
it. -/
inductive LuaArg
  | str (data : List Char)
  | table (t : LuaTable)
  | other

/-- The errors the module raises: `error msg` by `luaL_error` with that
message, `badarg what` by a failed check of `lauxlib` that expected `what`. -/
inductive LuaError
  | error (msg : String)
  | badarg (what : String)
deriving DecidableEq, Repr

/-- The result of a call that returns no value: the hardware state it leaves and
the error it raised, if any. -/
structure Outcome where
  hw : LPC
  err : Option LuaError
deriving DecidableEq, Repr

/-- The function `luaL_checkinteger`: the integer, or `none` when it raises. -/
def luaL_checkinteger : LuaValue → Option Int
  | .number n => some n
  | .numstr n => some n
  | _ => none

/-- The width of the store that the table branch of `mbed_rtc_set` makes for
field `i`: through a `uint16_t` pointer for the year, a `uint8_t` pointer for the
others. -/
def cast_width (i : Nat) : Nat := if i = 2 then 16 else 8

/-- The loop of the table branch of `mbed_rtc_set`, over the indices still to
visit. -/
def set_fields (t : LuaTable) : List Nat → LPC → Outcome
  | [], hw => ⟨hw, none⟩
  | i :: rest, hw =>
    match t (mbed_datetime_names.getD i "") with
    | .number v =>
      -- Test the range and set the register
      if v < mbed_datetime_min.getD i 0 ∨ v > mbed_datetime_max.getD i 0 then
        ⟨hw, some (.error ("invalid " ++ mbed_datetime_names.getD i ""))⟩
      else if i = 2 then -- Year is the only 16bit val
        set_fields t rest (hw.put (mbed_datetime_regs.getD i .DOM) (narrow 16 v))
      else
        set_fields t rest (hw.put (mbed_datetime_regs.getD i .DOM) (narrow 8 v))
    | _ => set_fields t rest hw

def mbed_rtc_set (arg : LuaArg) (hw : LPC) : Outcome :=
  match arg with
  | .str data =>
    match parse_datetime data with
    | some [d, m, y, h, mi, s] => ⟨platform_rtc_set d m y h mi s hw, none⟩
    | _ => ⟨hw, some (.error "invalid datetime format")⟩
  | .table t => set_fields t (List.range 6) hw
  | .other => ⟨hw, some (.badarg "table")⟩

/-- The register writes the loop of the table branch of `mbed_rtc_set` makes,
in program order: the register and the `int` stored into it, for each visited
field that holds a number inside its bounds, up to the first field that raises
the range error. -/
def set_fields_writes (t : LuaTable) : List Nat → List (Reg × Int)
  | [] => []
  | i :: rest =>
    match t (mbed_datetime_names.getD i "") with
    | .number v =>
      if v < mbed_datetime_min.getD i 0 ∨ v > mbed_datetime_max.getD i 0 then []
      else (mbed_datetime_regs.getD i .DOM, v) :: set_fields_writes t rest
    | _ => set_fields_writes t rest

/-- The register writes a call of `mbed_rtc_set` makes, in program order: those
of `platform_rtc_set` when a string is accepted, those of the loop for a table,
none when the call fails before its first write. -/
def mbed_rtc_set_writes (arg : LuaArg) : List (Reg × Int) :=
  match arg with
  | .str data =>
    match parse_datetime data with
    | some [d, m, y, h, mi, s] => platform_rtc_set_writes d m y h mi s
    | _ => []
  | .table t => set_fields_writes t (List.range 6)
  | .other => []

/-- What `mbed_rtc_get` pushes as its result: a string or a table. -/
inductive LuaRet
  | str (s : List Char)
  | table (t : LuaTable)

/-- How a call of `mbed_rtc_get` ends: with a value pushed, with an error
raised, or with `sprintf` writing past the end of `buff`, after which the C
program has no defined behaviour. -/
inductive GetResult
  | value (v : LuaRet)
  | error (e : LuaError)
  | overflow

/-- The table `lua_newtable` pushes: no key is present. -/
def lua_newtable : LuaTable := fun _ => .nil

/-- The table after `lua_settable` has stored `v` under the key `k`. -/
def lua_settable (t : LuaTable) (k : String) (v : LuaValue) : LuaTable :=
  fun q => if q = k then v else t q

/-- The loop of the `*t` branch of `mbed_rtc_get`, over the indices still to
visit: `vals` are the six values behind `pvals`. -/
def get_fields (vals : List Int) : List Nat → LuaTable → LuaTable
  | [], t => t
  | i :: rest, t =>
    get_fields vals rest
      (lua_settable t (mbed_datetime_names.getD i "") (.number (vals.getD i (-1))))

/-- The function `mbed_rtc_get`: how the call ends, and the hardware state it
leaves. `buff` has 20 bytes, so that `sprintf` stays inside it when its output
has at most 19 characters. -/
def mbed_rtc_get (arg : LuaArg) (hw : LPC) : GetResult × LPC :=
  match arg with
  | .str fmt =>
    let vals := platform_rtc_get hw
    if fmt = "*s".toList then
      let out := sprintf_datetime (vals.getD 0 (-1)) (vals.getD 1 (-1)) (vals.getD 2 (-1))
        (vals.getD 3 (-1)) (vals.getD 4 (-1)) (vals.getD 5 (-1))
      if out.length < 20 then (.value (.str out), hw) else (.overflow, hw)
    else if fmt = "*t".toList then
      (.value (.table (get_fields vals (List.range 6) lua_newtable)), hw)
    else (.error (.error "invalid format"), hw)
  | _ => (.error (.badarg "string"), hw)

/-- The loop of the table branch of `mbed_rtc_setalarm`: the six integers, or
`none` when `luaL_checkinteger` raises on one of the fields. -/
def check_fields (t : LuaTable) : List String → Option (List Int)
  | [] => some []
  | k :: ks =>
    match luaL_checkinteger (t k) with
    | none => none
    | some v =>
      match check_fields t ks with
      | none => none
      | some vs => some (v :: vs)

/-- The range checks of `mbed_rtc_setalarm`, in program order: the message of
the first one that fails. -/
def alarm_check (dd mon yy hh mm ss : Int) : Option String :=
  if hh < 0 ∨ hh ≥ 24 then some "invalid hour"
  else if mm < 0 ∨ mm ≥ 60 then some "invalid minute"
  else if ss < 0 ∨ ss ≥ 60 then some "invalid second"
  else if dd < 1 ∨ dd > 31 then some "invalid day"
  else if mon < 1 ∨ mon > 12 then some "invalid month"
  else if yy < 0 ∨ yy > 9999 then some "invalid year"
  else none

/-- The part of `mbed_rtc_setalarm` after the six values are read. -/
def setalarm_commit (vals : List Int) (hw : LPC) : Outcome :=
  match vals with
  | [dd, mon, yy, hh, mm, ss] =>
    match alarm_check dd mon yy hh mm ss with
    | some msg => ⟨hw, some (.error msg)⟩
    | none => ⟨platform_rtc_setalarm dd mon yy hh mm ss hw, none⟩
  | _ => ⟨hw, some (.error "invalid datetime format")⟩

def mbed_rtc_setalarm (arg : LuaArg) (hw : LPC) : Outcome :=
  match arg with
  | .str data =>
    match parse_datetime data with
    | some vals => setalarm_commit vals hw
    | none => ⟨hw, some (.error "invalid datetime format")⟩
  | .table t =>
    match check_fields t mbed_datetime_names with
    | some vals => setalarm_commit vals hw
    | none => ⟨hw, some (.badarg "number")⟩
  | .other => ⟨hw, some (.badarg "table")⟩

/-- The function `mbed_rtc_alarmed`: the boolean it pushes and the state it
leaves. -/
def mbed_rtc_alarmed (hw : LPC) : Bool × LPC :=
  ((hw.ILR &&& 2) >>> 1 != 0, hw.ILR_or 2)

/-! ## Sample inputs and a measure used in the proofs -/

/-- The number a list of digit characters denotes, continuing from `acc`. -/
def digits_value (acc : Nat) (l : List Char) : Nat :=
  l.foldl (fun a c => a * 10 + (c.toNat - 48)) acc

/-- The six clock registers are inside the ranges of the field table: day
1..31, month 1..12, year 0..9999, hour 0..24, minute 0..60, second 0..60. -/
def clock_in_range (hw : LPC) : Prop :=
  (1 ≤ hw.DOM ∧ hw.DOM ≤ 31) ∧ (1 ≤ hw.MONTH ∧ hw.MONTH ≤ 12) ∧ hw.YEAR ≤ 9999 ∧
  hw.HOUR ≤ 24 ∧ hw.MIN ≤ 60 ∧ hw.SEC ≤ 60

instance (hw : LPC) : Decidable (clock_in_range hw) := by
  unfold clock_in_range
  infer_instance

/-- A number as `%d` reads it: any amount of white space, an optional sign, and
one or more decimal digits. -/
def number_token (tok : List Char) : Bool :=
  match skip_space tok with
  | [] => false
  | c :: cs =>
    let body := if c = '-' ∨ c = '+' then cs else c :: cs
    !body.isEmpty && body.all isdigit

/-- A state of the peripheral whose clock is stopped (`CCR` holds 0) and reads
01/01/2000 01:01:01. -/
def stopped_hw : LPC :=
  { ILR := 0, CCR := 0, AMR := 0, SEC := 1, MIN := 1, HOUR := 1, DOM := 1, MONTH := 1,
    YEAR := 2000, ALSEC := 0, ALMIN := 0, ALHOUR := 0, ALDOM := 0, ALMON := 0, ALYEAR := 0,
    irqPending := false, irqPriority := 0 }

/-- A non-empty run of decimal digits at the head of the input: what follows
it, or `none` when the input does not start with a digit. -/
def strict_digits : List Char → Option (List Char)
  | [] => none
  | c :: cs => if isdigit c then some (scan_digits 0 (c :: cs)).2 else none

/-- The shape the specification gives for the string form, read strictly:
digits `/` digits `/` digits, one space character, digits `:` digits `:` digits,
and nothing else before, between or after. -/
def spec_strict_shape (s : List Char) : Bool :=
  match strict_digits s >>= scan_lit '/' >>= strict_digits >>= scan_lit '/' >>= strict_digits
      >>= scan_lit ' ' >>= strict_digits >>= scan_lit ':' >>= strict_digits >>= scan_lit ':'
      >>= strict_digits with
  | some [] => true
  | _ => false

/-- A record with the two fields `day = 5` and `month = 13`. -/
def day5_month13 : LuaTable := fun k =>
  if k = "day" then .number 5 else if k = "month" then .number 13 else .nil

/-- A record with the three fields `hour = 10`, `min = 0` and `sec = 0`. -/
def only_time : LuaTable := fun k =>
  if k = "hour" then .number 10 else if k = "min" then .number 0
  else if k = "sec" then .number 0 else .nil

/-- A record with the single field `hour`. -/
def only_hour (v : Int) : LuaTable := fun k => if k = "hour" then .number v else .nil

/-- A record with all six fields: 01/01/2000 at 24:00:00. -/
def alarm_hour24 : LuaTable := fun k =>
  if k = "day" then .number 1 else if k = "month" then .number 1
  else if k = "year" then .number 2000 else if k = "hour" then .number 24
  else if k = "min" then .number 0 else if k = "sec" then .number 0 else .nil

/-- A record with every field but `year`: 15/06 at 09:30:45. -/
def no_year : LuaTable := fun k =>
  if k = "day" then .number 15 else if k = "month" then .number 6
  else if k = "hour" then .number 9 else if k = "min" then .number 30
  else if k = "sec" then .number 45 else .nil

/-- A state of the peripheral: the clock reads 01/01/2000 01:01:01 and runs, the
alarm bank is zero and the alarm flag is raised. -/
def sample_hw : LPC :=
  { ILR := 2, CCR := 17, AMR := 0, SEC := 1, MIN := 1, HOUR := 1, DOM := 1, MONTH := 1,
    YEAR := 2000, ALSEC := 0, ALMIN := 0, ALHOUR := 0, ALDOM := 0, ALMON := 0, ALYEAR := 0,
    irqPending := true, irqPriority := 0 }

/-- The state that `set` given the string `01/01/10000 00:00:00` leaves when it
is called in `sample_hw`. -/
def year10000_hw : LPC :=
  (mbed_rtc_set (.str "01/01/10000 00:00:00".toList) sample_hw).hw

/-! ## The table branch of `mbed_rtc_set` -/

theorem read_put (hw : LPC) (r q : Reg) (n : Nat) :
    (hw.put r n).read q = if q = r then n else hw.read q := by
  cases r <;> cases q <;> simp [LPC.put, LPC.read]

theorem set_fields_cons_bad (t : LuaTable) (i : Nat) (rest : List Nat) (hw : LPC) (v : Int)
    (h : t (mbed_datetime_names.getD i "") = .number v)
    (hb : v < mbed_datetime_min.getD i 0 ∨ v > mbed_datetime_max.getD i 0) :
    set_fields t (i :: rest) hw =
      ⟨hw, some (.error ("invalid " ++ mbed_datetime_names.getD i ""))⟩ := by
  simp only [set_fields, h, hb, if_true]

theorem set_fields_cons_good (t : LuaTable) (i : Nat) (rest : List Nat) (hw : LPC) (v : Int)
    (h : t (mbed_datetime_names.getD i "") = .number v)
    (hb : ¬ (v < mbed_datetime_min.getD i 0 ∨ v > mbed_datetime_max.getD i 0)) :
    set_fields t (i :: rest) hw =
      set_fields t rest (hw.put (mbed_datetime_regs.getD i .DOM) (narrow (cast_width i) v)) := by
  simp only [set_fields, h, hb, if_false, cast_width]
  split <;> rfl

theorem set_fields_cons_skip (t : LuaTable) (i : Nat) (rest : List Nat) (hw : LPC)
    (h : ∀ v, t (mbed_datetime_names.getD i "") ≠ .number v) :
    set_fields t (i :: rest) hw = set_fields t rest hw := by
  cases h2 : t (mbed_datetime_names.getD i "") with
  | number v => exact absurd h2 (h v)
  | nil => simp only [set_fields, h2]
  | numstr n => simp only [set_fields, h2]
  | other => simp only [set_fields, h2]

/-- A field either holds a number or it does not. -/
theorem number_or_not (x : LuaValue) : (∃ v, x = .number v) ∨ ∀ v, x ≠ .number v := by
  cases x with
  | number v => exact Or.inl ⟨v, rfl⟩
  | nil => exact Or.inr (fun v h => by cases h)
  | numstr n => exact Or.inr (fun v h => by cases h)
  | other => exact Or.inr (fun v h => by cases h)

theorem not_number_of_nil {x : LuaValue} (h : x = .nil) (v : Int) : x ≠ .number v := by
  subst h
  intro h2
  cases h2

theorem number_unique (x : LuaValue) {a b : Int} (ha : x = .number a) (hb : x = .number b) :
    b = a := by
  rw [ha] at hb
  cases hb
  rfl

/-- The loop succeeds exactly when no visited field holds a number outside the
bounds of the two tables. -/
theorem set_fields_err_none (t : LuaTable) (is : List Nat) (hw : LPC) :
    (set_fields t is hw).err = none ↔
      ∀ i ∈ is, ∀ v, t (mbed_datetime_names.getD i "") = .number v →
        mbed_datetime_min.getD i 0 ≤ v ∧ v ≤ mbed_datetime_max.getD i 0 := by
  induction is generalizing hw with
  | nil => simp [set_fields]
  | cons i rest ih =>
    rcases number_or_not (t (mbed_datetime_names.getD i "")) with ⟨v, h⟩ | h
    · by_cases hb : v < mbed_datetime_min.getD i 0 ∨ v > mbed_datetime_max.getD i 0
      · rw [set_fields_cons_bad t i rest hw v h hb]
        constructor
        · intro hc
          simp at hc
        · intro hall
          have := hall i (List.mem_cons_self _ _) v h
          omega
      · rw [set_fields_cons_good t i rest hw v h hb, ih]
        constructor
        · intro hall j hj w hw2
          rcases List.mem_cons.1 hj with rfl | hj
          · rw [h] at hw2
            cases hw2
            omega
          · exact hall j hj w hw2
        · intro hall j hj w hw2
          exact hall j (List.mem_cons_of_mem _ hj) w hw2
    · rw [set_fields_cons_skip t i rest hw h, ih]
      constructor
      · intro hall j hj w hw2
        rcases List.mem_cons.1 hj with rfl | hj
        · exact absurd hw2 (h w)
        · exact hall j hj w hw2
      · intro hall j hj w hw2
        exact hall j (List.mem_cons_of_mem _ hj) w hw2

/-- An error of the loop is the range error of a visited field that holds a
number outside the bounds of the two tables. -/
theorem set_fields_err_some (t : LuaTable) (is : List Nat) (hw : LPC) (e : LuaError)
    (he : (set_fields t is hw).err = some e) :
    ∃ i ∈ is, ∃ v, t (mbed_datetime_names.getD i "") = .number v ∧
      (v < mbed_datetime_min.getD i 0 ∨ v > mbed_datetime_max.getD i 0) ∧
      e = .error ("invalid " ++ mbed_datetime_names.getD i "") := by
  induction is generalizing hw with
  | nil => simp [set_fields] at he
  | cons i rest ih =>
    have lift : (∃ j ∈ rest, ∃ v, t (mbed_datetime_names.getD j "") = .number v ∧
          (v < mbed_datetime_min.getD j 0 ∨ v > mbed_datetime_max.getD j 0) ∧
          e = .error ("invalid " ++ mbed_datetime_names.getD j "")) →
        ∃ j ∈ i :: rest, ∃ v, t (mbed_datetime_names.getD j "") = .number v ∧
          (v < mbed_datetime_min.getD j 0 ∨ v > mbed_datetime_max.getD j 0) ∧
          e = .error ("invalid " ++ mbed_datetime_names.getD j "") := by
      rintro ⟨j, hj, v, h1, h2, h3⟩
      exact ⟨j, List.mem_cons_of_mem _ hj, v, h1, h2, h3⟩
    rcases number_or_not (t (mbed_datetime_names.getD i "")) with ⟨v, h⟩ | h
    · by_cases hb : v < mbed_datetime_min.getD i 0 ∨ v > mbed_datetime_max.getD i 0
      · rw [set_fields_cons_bad t i rest hw v h hb] at he
        simp only [Option.some.injEq] at he
        exact ⟨i, List.mem_cons_self _ _, v, h, hb, he.symm⟩
      · rw [set_fields_cons_good t i rest hw v h hb] at he
        exact lift (ih _ he)
    · rw [set_fields_cons_skip t i rest hw h] at he
      exact lift (ih _ he)

/-- The loop leaves alone every register that is not the register of a visited
field holding a number. -/
theorem set_fields_frame (t : LuaTable) (is : List Nat) (hw : LPC) (r : Reg)
    (hr : ∀ i ∈ is, mbed_datetime_regs.getD i .DOM = r →
      ∀ v, t (mbed_datetime_names.getD i "") ≠ .number v) :
    (set_fields t is hw).hw.read r = hw.read r := by
  induction is generalizing hw with
  | nil => simp [set_fields]
  | cons i rest ih =>
    have hrest : ∀ j ∈ rest, mbed_datetime_regs.getD j .DOM = r →
        ∀ v, t (mbed_datetime_names.getD j "") ≠ .number v :=
      fun j hj => hr j (List.mem_cons_of_mem _ hj)
    rcases number_or_not (t (mbed_datetime_names.getD i "")) with ⟨v, h⟩ | h
    · have hne : r ≠ mbed_datetime_regs.getD i .DOM := by
        intro heq
        exact hr i (List.mem_cons_self _ _) heq.symm v h
      by_cases hb : v < mbed_datetime_min.getD i 0 ∨ v > mbed_datetime_max.getD i 0
      · rw [set_fields_cons_bad t i rest hw v h hb]
      · rw [set_fields_cons_good t i rest hw v h hb, ih _ hrest, read_put, if_neg hne]
    · rw [set_fields_cons_skip t i rest hw h]
      exact ih _ hrest

/-- The six registers of the table are pairwise distinct. -/
theorem regs_injective (i j : Nat) (hi : i < 6) (hj : j < 6)
    (h : mbed_datetime_regs.getD i .DOM = mbed_datetime_regs.getD j .DOM) : i = j := by
  interval_cases i <;> interval_cases j <;> first | rfl | (exact absurd h (by decide))

/-- A value inside the bounds of the two tables is not changed by the store the
loop makes for its field. -/
theorem narrow_in_range (i : Nat) (hi : i < 6) (v : Int)
    (hv : mbed_datetime_min.getD i 0 ≤ v ∧ v ≤ mbed_datetime_max.getD i 0) :
    (narrow (cast_width i) v : Int) = v := by
  unfold narrow
  interval_cases i <;>
    simp [mbed_datetime_min, mbed_datetime_max, cast_width] at hv ⊢ <;> omega

/-- When every visited field that holds a number is inside the bounds, the
register of each such field holds the number after the loop. -/
theorem set_fields_written (t : LuaTable) (is : List Nat) (hw : LPC)
    (hlt : ∀ i ∈ is, i < 6) (hnd : is.Nodup)
    (hok : ∀ i ∈ is, ∀ v, t (mbed_datetime_names.getD i "") = .number v →
      mbed_datetime_min.getD i 0 ≤ v ∧ v ≤ mbed_datetime_max.getD i 0)
    (j : Nat) (hj : j ∈ is) (w : Int) (hw2 : t (mbed_datetime_names.getD j "") = .number w) :
    ((set_fields t is hw).hw.read (mbed_datetime_regs.getD j .DOM) : Int) = w := by
  induction is generalizing hw with
  | nil => simp at hj
  | cons i rest ih =>
    have hnd2 := List.nodup_cons.1 hnd
    have hlt2 : ∀ k ∈ rest, k < 6 := fun k hk => hlt k (List.mem_cons_of_mem _ hk)
    have hok2 : ∀ k ∈ rest, ∀ v, t (mbed_datetime_names.getD k "") = .number v →
        mbed_datetime_min.getD k 0 ≤ v ∧ v ≤ mbed_datetime_max.getD k 0 :=
      fun k hk => hok k (List.mem_cons_of_mem _ hk)
    rcases List.mem_cons.1 hj with rfl | hj2
    · have hin := hok j (List.mem_cons_self _ _) w hw2
      have hj6 := hlt j (List.mem_cons_self _ _)
      rw [set_fields_cons_good t j rest hw w hw2 (by omega)]
      rw [set_fields_frame t rest _ _ ?_, read_put, if_pos rfl]
      · exact narrow_in_range j hj6 w hin
      · intro k hk hreg
        have : k = j := regs_injective k j (hlt2 k hk) hj6 hreg
        subst this
        exact absurd hk hnd2.1
    · rcases number_or_not (t (mbed_datetime_names.getD i "")) with ⟨v, h⟩ | h
      · have hin := hok i (List.mem_cons_self _ _) v h
        rw [set_fields_cons_good t i rest hw v h (by omega)]
        exact ih _ hlt2 hnd2.2 hok2 hj2
      · rw [set_fields_cons_skip t i rest hw h]
        exact ih _ hlt2 hnd2.2 hok2 hj2

/-! ## The scanner on an input with something appended -/

theorem skip_space_append (inp t : List Char) (h : skip_space inp ≠ []) :
    skip_space (inp ++ t) = skip_space inp ++ t := by
  induction inp with
  | nil => simp [skip_space] at h
  | cons c cs ih =>
    by_cases hc : isspace c = true
    · simp only [skip_space, hc, if_true, List.cons_append] at h ⊢
      exact ih h
    · simp only [skip_space, hc, List.cons_append]
      simp

/-- The digits read from `inp` are the same when `t` is appended, as long as the
run of digits ends inside `inp` or `t` does not start with a digit. -/
theorem scan_digits_append (inp t : List Char) (acc : Nat)
    (h : (scan_digits acc inp).2 ≠ [] ∨ ∀ c cs, t = c :: cs → isdigit c = false) :
    scan_digits acc (inp ++ t) = ((scan_digits acc inp).1, (scan_digits acc inp).2 ++ t) := by
  induction inp generalizing acc with
  | nil =>
    rcases h with h | h
    · simp [scan_digits] at h
    · cases t with
      | nil => simp [scan_digits]
      | cons c cs => simp [scan_digits, h c cs rfl]
  | cons c cs ih =>
    by_cases hc : isdigit c = true
    · simp only [scan_digits, hc, if_true, List.cons_append] at h ⊢
      exact ih _ h
    · simp [scan_digits, hc]

theorem scan_int_append (inp t : List Char) (v : Int) (r : List Char)
    (h : scan_int inp = some (v, r))
    (ht : r ≠ [] ∨ ∀ c cs, t = c :: cs → isdigit c = false) :
    scan_int (inp ++ t) = some (v, r ++ t) := by
  unfold scan_int at h ⊢
  cases hs : skip_space inp with
  | nil => simp [hs] at h
  | cons c cs =>
    rw [skip_space_append inp t (by simp [hs]), hs]
    rw [hs] at h
    simp only [List.cons_append]
    by_cases hsign : c = '-' ∨ c = '+'
    · simp only [hsign, if_true] at h ⊢
      cases cs with
      | nil => simp at h
      | cons b bs =>
        simp only [List.cons_append] at h ⊢
        by_cases hb : isdigit b = true
        · simp only [hb, if_true, Option.some.injEq, Prod.mk.injEq] at h ⊢
          obtain ⟨h1, h2⟩ := h
          have := scan_digits_append (b :: bs) t 0 (by rw [h2]; exact ht)
          simp only [List.cons_append] at this
          rw [this, h2]
          exact ⟨h1, rfl⟩
        · simp [hb] at h
    · simp only [hsign, if_false] at h ⊢
      by_cases hb : isdigit c = true
      · simp only [hb, if_true, Option.some.injEq, Prod.mk.injEq] at h ⊢
        obtain ⟨h1, h2⟩ := h
        have := scan_digits_append (c :: cs) t 0 (by rw [h2]; exact ht)
        simp only [List.cons_append] at this
        rw [this, h2]
        exact ⟨h1, rfl⟩
      · simp [hb] at h

theorem scan_int_nil : scan_int [] = none := rfl

/-- A directive that leaves something of the input, or a `%d` followed by no
digit, does the same when `t` is appended to the input. -/
theorem step_append (d : Directive) (inp t : List Char) (vs : List Int) (r : List Char)
    (h : d.step inp = some (vs, r))
    (ht : r ≠ [] ∨ (d = .int ∧ ∀ c cs, t = c :: cs → isdigit c = false)) :
    d.step (inp ++ t) = some (vs, r ++ t) := by
  cases d with
  | int =>
    simp only [Directive.step] at h ⊢
    cases hi : scan_int inp with
    | none => simp [hi] at h
    | some p =>
      obtain ⟨v, r1⟩ := p
      simp only [hi, Option.some.injEq, Prod.mk.injEq] at h
      obtain ⟨h1, h2⟩ := h
      subst h1 h2
      rw [scan_int_append inp t v r1 hi (by
        rcases ht with ht | ht
        · exact Or.inl ht
        · exact Or.inr ht.2)]
  | lit ch =>
    simp only [Directive.step] at h ⊢
    cases inp with
    | nil => simp [scan_lit] at h
    | cons c cs =>
      by_cases hc : c = ch
      · simp only [scan_lit, hc, if_true, Option.some.injEq, Prod.mk.injEq] at h
        obtain ⟨h1, h2⟩ := h
        subst h1 h2
        simp [scan_lit, hc]
      · simp [scan_lit, hc] at h
  | space =>
    simp only [Directive.step, Option.some.injEq, Prod.mk.injEq] at h ⊢
    obtain ⟨h1, h2⟩ := h
    subst h1
    rcases ht with ht | ht
    · rw [skip_space_append inp t (by rw [h2]; exact ht), h2]
      exact ⟨rfl, rfl⟩
    · exact absurd ht.1 (by simp)

theorem scan_run_cons (d : Directive) (ds : List Directive) (inp : List Char) :
    scan_run (d :: ds) inp =
      match d.step inp with
      | none => none
      | some (v, r) =>
        match scan_run ds r with
        | none => none
        | some (vs, r2) => some (v ++ vs, r2) := rfl

/-- A format that ends in `%d` does not match the empty input. -/
theorem scan_run_int_nil (ds : List Directive) : scan_run (ds ++ [.int]) [] = none := by
  induction ds with
  | nil => rfl
  | cons d ds ih =>
    cases d with
    | int => rfl
    | lit ch => rfl
    | space =>
      show (match scan_run (ds ++ [.int]) [] with
        | none => none
        | some (vs, r2) => some (([] : List Int) ++ vs, r2)) = none
      rw [ih]

/-- A format that ends in `%d` reads the same values from an input and from the
input followed by something that does not start with a digit, and stops at the
same place. -/
theorem scan_run_append (ds : List Directive) (inp t : List Char) (vs : List Int)
    (r : List Char) (h : scan_run (ds ++ [.int]) inp = some (vs, r))
    (ht : ∀ c cs, t = c :: cs → isdigit c = false) :
    scan_run (ds ++ [.int]) (inp ++ t) = some (vs, r ++ t) := by
  induction ds generalizing inp vs with
  | nil =>
    simp only [List.nil_append, scan_run] at h ⊢
    cases hd : Directive.int.step inp with
    | none => simp [hd] at h
    | some p =>
      obtain ⟨v, r1⟩ := p
      simp only [hd, List.append_nil, Option.some.injEq, Prod.mk.injEq] at h
      obtain ⟨h1, h2⟩ := h
      subst h1 h2
      rw [step_append .int inp t v r1 hd (Or.inr ⟨rfl, ht⟩)]
      simp
  | cons d ds ih =>
    rw [List.cons_append, scan_run_cons] at h ⊢
    cases hd : d.step inp with
    | none => simp [hd] at h
    | some p =>
      obtain ⟨v, r1⟩ := p
      simp only [hd] at h
      cases hrun : scan_run (ds ++ [.int]) r1 with
      | none => simp [hrun] at h
      | some q =>
        obtain ⟨ws, r2⟩ := q
        simp only [hrun, Option.some.injEq, Prod.mk.injEq] at h
        obtain ⟨h1, h2⟩ := h
        subst h1 h2
        have hne : r1 ≠ [] := by
          intro he
          rw [he, scan_run_int_nil] at hrun
          cases hrun
        rw [step_append d inp t v r1 hd (Or.inl hne)]
        simp only [ih r1 ws hrun]

theorem datetime_format_split : datetime_format =
    [.int, .lit '/', .int, .lit '/', .int, .space, .int, .lit ':', .int, .lit ':'] ++ [.int] :=
  rfl

/-- The whole-input test fails on an accepted string followed by something that
does not start with a digit. -/
theorem parse_datetime_append (s : List Char) (c : Char) (cs : List Char) (vals : List Int)
    (h : parse_datetime s = some vals) (hc : isdigit c = false) :
    parse_datetime (s ++ c :: cs) = none := by
  unfold parse_datetime sscanf_datetime at h ⊢
  cases hrun : scan_run datetime_format s with
  | none => simp [hrun] at h
  | some p =>
    obtain ⟨vs, r⟩ := p
    rw [datetime_format_split] at hrun
    have happ := scan_run_append _ s (c :: cs) vs r hrun (by
      intro c2 cs2 heq
      cases heq
      exact hc)
    rw [← datetime_format_split] at happ
    rw [happ]
    simp only [List.length_append, List.length_cons, ne_eq, ite_eq_left_iff, not_not,
      reduceCtorEq, imp_false]
    omega

/-! ## The scanner on the output of the formatter -/

theorem digit_char_spec (d : Nat) (hd : d < 10) :
    isdigit (digit_char d) = true ∧ (digit_char d).toNat - 48 = d := by
  interval_cases d <;> exact ⟨rfl, rfl⟩

theorem isdigit_not_space (c : Char) (h : isdigit c = true) : isspace c = false := by
  simp only [isdigit, isspace, Bool.and_eq_true, decide_eq_true_eq, Bool.or_eq_false_iff,
    decide_eq_false_iff_not, Bool.and_eq_false_iff] at h ⊢
  omega

theorem isdigit_not_sign (c : Char) (h : isdigit c = true) : ¬ (c = '-' ∨ c = '+') := by
  rintro (rfl | rfl) <;> exact absurd h (by decide)

theorem scan_digits_cons (acc : Nat) (c : Char) (cs : List Char) :
    scan_digits acc (c :: cs) =
      if isdigit c then scan_digits (acc * 10 + (c.toNat - 48)) cs else (acc, c :: cs) := rfl

/-- A run of digits followed by something that does not start with a digit is
read whole. -/
theorem scan_digits_run (l rest : List Char) (acc : Nat)
    (hl : ∀ c ∈ l, isdigit c = true)
    (hrest : ∀ c cs, rest = c :: cs → isdigit c = false) :
    scan_digits acc (l ++ rest) = (digits_value acc l, rest) := by
  induction l generalizing acc with
  | nil =>
    cases rest with
    | nil => rfl
    | cons c cs => simp [scan_digits, digits_value, hrest c cs rfl]
  | cons c cs ih =>
    have hc := hl c (List.mem_cons_self _ _)
    rw [List.cons_append, scan_digits_cons, if_pos hc,
      ih _ (fun x hx => hl x (List.mem_cons_of_mem _ hx))]
    rfl

/-- The conversion `%d` on a non-empty run of digits followed by something that
does not start with a digit. -/
theorem scan_int_run (l rest : List Char) (hne : l ≠ [])
    (hl : ∀ c ∈ l, isdigit c = true)
    (hrest : ∀ c cs, rest = c :: cs → isdigit c = false) :
    scan_int (l ++ rest) = some (clamp_int (digits_value 0 l), rest) := by
  cases l with
  | nil => exact absurd rfl hne
  | cons c cs =>
    have hc := hl c (List.mem_cons_self _ _)
    have hrun := scan_digits_run (c :: cs) rest 0 hl hrest
    simp only [List.cons_append] at hrun
    have hneq : c ≠ '-' := fun h => isdigit_not_sign c hc (Or.inl h)
    have hs : skip_space (c :: (cs ++ rest)) = c :: (cs ++ rest) := by
      simp [skip_space, isdigit_not_space c hc]
    unfold scan_int
    rw [List.cons_append, hs]
    have hsign : ¬ (c = '-' ∨ c = '+') := isdigit_not_sign c hc
    simp only [hsign, if_false, hc, if_true, hrun]
    simp only [hneq, if_false]

theorem decimal_rev_spec (fuel n : Nat) (h : n < fuel) :
    decimal_rev fuel n ≠ [] ∧ (∀ c ∈ decimal_rev fuel n, isdigit c = true) ∧
    (decimal_rev fuel n).foldr (fun c a => a * 10 + (c.toNat - 48)) 0 = n := by
  induction fuel generalizing n with
  | zero => omega
  | succ fuel ih =>
    by_cases hn : n < 10
    · have hd := digit_char_spec n hn
      simp only [decimal_rev, hn, if_true]
      refine ⟨by simp, ?_, ?_⟩
      · intro c hc
        rw [List.mem_singleton.1 hc]
        exact hd.1
      · simp [hd.2]
    · have hd := digit_char_spec (n % 10) (Nat.mod_lt _ (by decide))
      have hrec := ih (n / 10) (by omega)
      simp only [decimal_rev, hn, if_false]
      refine ⟨by simp, ?_, ?_⟩
      · intro c hc
        rcases List.mem_cons.1 hc with rfl | hc
        · exact hd.1
        · exact hrec.2.1 c hc
      · simp only [List.foldr_cons, hrec.2.2, hd.2]
        omega

theorem decimal_spec (n : Nat) :
    decimal n ≠ [] ∧ (∀ c ∈ decimal n, isdigit c = true) ∧ digits_value 0 (decimal n) = n := by
  have h := decimal_rev_spec (n + 1) n (Nat.lt_succ_self n)
  unfold decimal digits_value
  refine ⟨by simpa using h.1, ?_, ?_⟩
  · intro c hc
    exact h.2.1 c (List.mem_reverse.1 hc)
  · rw [List.foldl_reverse]
    exact h.2.2

theorem digits_value_zeros (k : Nat) : digits_value 0 (List.replicate k '0') = 0 := by
  induction k with
  | zero => rfl
  | succ k ih =>
    have h0 : ('0' : Char).toNat - 48 = 0 := rfl
    simp only [digits_value, List.replicate_succ, List.foldl_cons, h0] at ih ⊢
    exact ih

theorem digits_value_append (l1 l2 : List Char) (acc : Nat) :
    digits_value acc (l1 ++ l2) = digits_value (digits_value acc l1) l2 := by
  simp [digits_value, List.foldl_append]

/-- The output of `%0<width>d` for a value that is not negative: a non-empty run
of digits whose value is the value printed. -/
theorem format_d_spec (w : Nat) (v : Int) (hv : 0 ≤ v) :
    format_d w v ≠ [] ∧ (∀ c ∈ format_d w v, isdigit c = true) ∧
    (digits_value 0 (format_d w v) : Int) = v := by
  have hd := decimal_spec v.natAbs
  have hneg : ¬ v < 0 := by omega
  simp only [format_d, hneg, if_false]
  refine ⟨?_, ?_, ?_⟩
  · intro h
    exact hd.1 (List.append_eq_nil.1 h).2
  · intro c hc
    rcases List.mem_append.1 hc with hc | hc
    · rw [(List.mem_replicate.1 hc).2]
      rfl
    · exact hd.2.1 c hc
  · rw [digits_value_append, digits_value_zeros, hd.2.2]
    omega

/-- The conversion `%d` reads back what `%0<width>d` printed, when the value is
that of a non-negative `int` and what follows does not start with a digit. -/
theorem scan_int_format_d (w : Nat) (v : Int) (rest : List Char)
    (hv : 0 ≤ v ∧ v ≤ 2147483647)
    (hrest : ∀ c cs, rest = c :: cs → isdigit c = false) :
    scan_int (format_d w v ++ rest) = some (v, rest) := by
  have h := format_d_spec w v hv.1
  rw [scan_int_run _ rest h.1 h.2.1 hrest, h.2.2]
  have : clamp_int v = v := by
    unfold clamp_int
    rw [if_neg (by omega), if_neg (by omega)]
  rw [this]

theorem skip_space_format_d (w : Nat) (v : Int) (rest : List Char) (hv : 0 ≤ v) :
    skip_space (format_d w v ++ rest) = format_d w v ++ rest := by
  have h := format_d_spec w v hv
  cases hf : format_d w v with
  | nil => exact absurd hf h.1
  | cons c cs =>
    have hc : isdigit c = true := h.2.1 c (by rw [hf]; exact List.mem_cons_self _ _)
    simp [skip_space, isdigit_not_space c hc]

/-- The scan of the formatted date and time returns the six values and reaches
the end of the string. -/
theorem scan_run_sprintf (dd mon yy hh mm ss : Int)
    (h1 : 0 ≤ dd ∧ dd ≤ 2147483647) (h2 : 0 ≤ mon ∧ mon ≤ 2147483647)
    (h3 : 0 ≤ yy ∧ yy ≤ 2147483647) (h4 : 0 ≤ hh ∧ hh ≤ 2147483647)
    (h5 : 0 ≤ mm ∧ mm ≤ 2147483647) (h6 : 0 ≤ ss ∧ ss ≤ 2147483647) :
    scan_run datetime_format (sprintf_datetime dd mon yy hh mm ss) =
      some ([dd, mon, yy, hh, mm, ss], []) := by
  have slash : ∀ c cs, ('/' :: (cs : List Char)) = c :: cs → isdigit c = false := by
    intro c cs h
    cases h
    rfl
  have e1 : ∀ (w : Nat) (v : Int) (rest : List Char), 0 ≤ v ∧ v ≤ 2147483647 →
      scan_int (format_d w v ++ '/' :: rest) = some (v, '/' :: rest) := by
    intro w v rest hv
    exact scan_int_format_d w v _ hv (by intro c cs h; cases h; rfl)
  have e2 : ∀ (w : Nat) (v : Int) (rest : List Char), 0 ≤ v ∧ v ≤ 2147483647 →
      scan_int (format_d w v ++ ':' :: rest) = some (v, ':' :: rest) := by
    intro w v rest hv
    exact scan_int_format_d w v _ hv (by intro c cs h; cases h; rfl)
  have e3 : ∀ (w : Nat) (v : Int) (rest : List Char), 0 ≤ v ∧ v ≤ 2147483647 →
      scan_int (format_d w v ++ ' ' :: rest) = some (v, ' ' :: rest) := by
    intro w v rest hv
    exact scan_int_format_d w v _ hv (by intro c cs h; cases h; rfl)
  have e4 : scan_int (format_d 2 ss) = some (ss, []) := by
    have := scan_int_format_d 2 ss [] h6 (by intro c cs h; cases h)
    simpa using this
  have e5 : ∀ rest : List Char, skip_space (' ' :: (format_d 2 hh ++ rest)) =
      format_d 2 hh ++ rest := by
    intro rest
    have hsp : isspace ' ' = true := rfl
    simp only [skip_space, hsp, if_true]
    exact skip_space_format_d 2 hh rest h4.1
  simp only [sprintf_datetime, datetime_format, scan_run_cons, Directive.step, e1 _ _ _ h1,
    e1 _ _ _ h2, e3 _ _ _ h3, e2 _ _ _ h4, e2 _ _ _ h5, e4, e5, scan_lit, if_true, scan_run,
    List.cons_append, List.nil_append, List.append_nil]

/-! ## `mbed.rtc.set` -/

/-- C1, on the code: `set` given the record with `day = 5` and `month = 13` fails
with the range error of the month, and in whatever state it was called it leaves 5
in the day register; from a state whose day register holds 1 the day register has
changed although the call failed. -/
theorem set_record_error_keeps_earlier_writes :
    (∀ hw : LPC,
      (mbed_rtc_set (.table day5_month13) hw).err = some (.error "invalid month") ∧
      (mbed_rtc_set (.table day5_month13) hw).hw.DOM = 5) ∧
    sample_hw.DOM = 1 ∧
    (mbed_rtc_set (.table day5_month13) sample_hw).hw.DOM ≠ sample_hw.DOM := by
  refine ⟨fun hw => ⟨rfl, rfl⟩, rfl, by decide⟩

/-- C2, on the code: `set` given the string `15/13/2024 09:30:45`, whose month is
outside 1..12, raises no error and writes all six clock registers, 13 into the
month register. -/
theorem set_string_out_of_range_is_written :
    parse_datetime "15/13/2024 09:30:45".toList = some [15, 13, 2024, 9, 30, 45] ∧
    ∀ hw : LPC,
      (mbed_rtc_set (.str "15/13/2024 09:30:45".toList) hw).err = none ∧
      (mbed_rtc_set (.str "15/13/2024 09:30:45".toList) hw).hw.MONTH = 13 ∧
      (mbed_rtc_set (.str "15/13/2024 09:30:45".toList) hw).hw.DOM = 15 := by
  refine ⟨by decide, fun hw => ⟨rfl, rfl, rfl⟩⟩

/-- C4: the range check that `set` applies to field `i` of a record (the other
fields being such that they raise no error) accepts the number `v` exactly when
`min[i] <= v <= max[i]` for min = (1,1,0,0,0,0) and max = (31,12,9999,24,60,60),
and when it rejects the error message is `invalid ` followed by the name of the
field. -/
theorem set_record_range_check (i : Nat) (hi : i < 6) (v : Int) (t : LuaTable) (hw : LPC)
    (hfield : t (mbed_datetime_names.getD i "") = .number v)
    (hothers : ∀ j, j < 6 → j ≠ i → ∀ w, t (mbed_datetime_names.getD j "") = .number w →
      ([1, 1, 0, 0, 0, 0] : List Int).getD j 0 ≤ w ∧
      w ≤ ([31, 12, 9999, 24, 60, 60] : List Int).getD j 0) :
    ((mbed_rtc_set (.table t) hw).err = none ↔
      ([1, 1, 0, 0, 0, 0] : List Int).getD i 0 ≤ v ∧
      v ≤ ([31, 12, 9999, 24, 60, 60] : List Int).getD i 0) ∧
    (¬ (([1, 1, 0, 0, 0, 0] : List Int).getD i 0 ≤ v ∧
        v ≤ ([31, 12, 9999, 24, 60, 60] : List Int).getD i 0) →
      (mbed_rtc_set (.table t) hw).err = some (.error ("invalid " ++
        (["day", "month", "year", "hour", "min", "sec"] : List String).getD i ""))) := by
  have hmem : i ∈ List.range 6 := List.mem_range.2 hi
  have hiff : (mbed_rtc_set (.table t) hw).err = none ↔
      mbed_datetime_min.getD i 0 ≤ v ∧ v ≤ mbed_datetime_max.getD i 0 := by
    show (set_fields t (List.range 6) hw).err = none ↔ _
    rw [set_fields_err_none]
    constructor
    · intro hall
      exact hall i hmem v hfield
    · intro hin j hj w hjw
      by_cases hji : j = i
      · subst hji
        rw [hfield] at hjw
        cases hjw
        exact hin
      · exact hothers j (List.mem_range.1 hj) hji w hjw
  refine ⟨hiff, ?_⟩
  intro hout
  cases he : (mbed_rtc_set (.table t) hw).err with
  | none => exact absurd (hiff.1 he) hout
  | some e =>
    obtain ⟨j, hj, w, hjw, hbad, rfl⟩ := set_fields_err_some t (List.range 6) hw e he
    by_cases hji : j = i
    · subst hji
      rfl
    · have := hothers j (List.mem_range.1 hj) hji w hjw
      exact absurd this (by
        show ¬ (mbed_datetime_min.getD j 0 ≤ w ∧ w ≤ mbed_datetime_max.getD j 0)
        omega)

/-- C4 at the hour field: 24 is accepted, 25 is rejected with `invalid hour`. -/
theorem set_record_range_check_witness :
    ((mbed_rtc_set (.table (only_hour 24)) sample_hw).err = none ↔
      ([1, 1, 0, 0, 0, 0] : List Int).getD 3 0 ≤ 24 ∧
      (24 : Int) ≤ ([31, 12, 9999, 24, 60, 60] : List Int).getD 3 0) ∧
    (mbed_rtc_set (.table (only_hour 24)) sample_hw).err = none ∧
    (mbed_rtc_set (.table (only_hour 25)) sample_hw).err = some (.error "invalid hour") :=
  ⟨(set_record_range_check 3 (by decide) 24 (only_hour 24) sample_hw rfl
      (by intro j hj hne w hjw
          interval_cases j <;>
            first | exact absurd rfl hne | (exact absurd hjw (not_number_of_nil rfl w)))).1,
   by decide,
   (set_record_range_check 3 (by decide) 25 (only_hour 25) sample_hw rfl
      (by intro j hj hne w hjw
          interval_cases j <;>
            first | exact absurd rfl hne | (exact absurd hjw (not_number_of_nil rfl w)))).2
      (by decide)⟩

/-- C5: when every field of the record that holds a number is inside its range,
`set` succeeds, the register of each such field holds the number afterwards, and
the register of every field that is absent or holds something else than a number
holds what it held before. -/
theorem set_record_partial_update (t : LuaTable) (hw : LPC)
    (hok : ∀ i, i < 6 → ∀ v, t (mbed_datetime_names.getD i "") = .number v →
      ([1, 1, 0, 0, 0, 0] : List Int).getD i 0 ≤ v ∧
      v ≤ ([31, 12, 9999, 24, 60, 60] : List Int).getD i 0) :
    (mbed_rtc_set (.table t) hw).err = none ∧
    ∀ i, i < 6 →
      (∀ v, t (mbed_datetime_names.getD i "") = .number v →
        ((mbed_rtc_set (.table t) hw).hw.read (mbed_datetime_regs.getD i .DOM) : Int) = v) ∧
      ((∀ v, t (mbed_datetime_names.getD i "") ≠ .number v) →
        (mbed_rtc_set (.table t) hw).hw.read (mbed_datetime_regs.getD i .DOM) =
          hw.read (mbed_datetime_regs.getD i .DOM)) := by
  have hok2 : ∀ i ∈ List.range 6, ∀ v, t (mbed_datetime_names.getD i "") = .number v →
      mbed_datetime_min.getD i 0 ≤ v ∧ v ≤ mbed_datetime_max.getD i 0 :=
    fun i hi => hok i (List.mem_range.1 hi)
  refine ⟨(set_fields_err_none t (List.range 6) hw).2 hok2, ?_⟩
  intro i hi
  constructor
  · intro v hv
    exact set_fields_written t (List.range 6) hw (fun k hk => List.mem_range.1 hk)
      (List.nodup_range 6) hok2 i (List.mem_range.2 hi) v hv
  · intro hnot
    apply set_fields_frame t (List.range 6) hw
    intro k hk hreg
    have : k = i := regs_injective k i (List.mem_range.1 hk) hi hreg
    subst this
    exact hnot

/-- C5 at the record with only `hour = 10`, `min = 0`, `sec = 0`: the call
succeeds, the three time registers hold 10, 0 and 0, and the day, month and year
registers are unchanged. -/
theorem set_record_partial_update_witness :
    (mbed_rtc_set (.table only_time) sample_hw).err = none ∧
    (mbed_rtc_set (.table only_time) sample_hw).hw.HOUR = 10 ∧
    (mbed_rtc_set (.table only_time) sample_hw).hw.MIN = 0 ∧
    (mbed_rtc_set (.table only_time) sample_hw).hw.SEC = 0 ∧
    (mbed_rtc_set (.table only_time) sample_hw).hw.DOM = sample_hw.DOM ∧
    (mbed_rtc_set (.table only_time) sample_hw).hw.MONTH = sample_hw.MONTH ∧
    (mbed_rtc_set (.table only_time) sample_hw).hw.YEAR = sample_hw.YEAR := by
  have h := set_record_partial_update only_time sample_hw (by
    intro i hi v hv
    interval_cases i
    · exact absurd hv (not_number_of_nil rfl v)
    · exact absurd hv (not_number_of_nil rfl v)
    · exact absurd hv (not_number_of_nil rfl v)
    · have hv10 : v = 10 := number_unique (only_time "hour") rfl hv
      subst hv10
      decide
    · have hv0 : v = 0 := number_unique (only_time "min") rfl hv
      subst hv0
      decide
    · have hv0 : v = 0 := number_unique (only_time "sec") rfl hv
      subst hv0
      decide)
  refine ⟨h.1, ?_, ?_, ?_, ?_, ?_, ?_⟩
  · have := (h.2 3 (by decide)).1 10 rfl
    exact_mod_cast this
  · have := (h.2 4 (by decide)).1 0 rfl
    exact_mod_cast this
  · have := (h.2 5 (by decide)).1 0 rfl
    exact_mod_cast this
  · exact (h.2 0 (by decide)).2 (fun v hv => absurd hv (not_number_of_nil rfl v))
  · exact (h.2 1 (by decide)).2 (fun v hv => absurd hv (not_number_of_nil rfl v))
  · exact (h.2 2 (by decide)).2 (fun v hv => absurd hv (not_number_of_nil rfl v))

/-! ## The string form -/

/-- C3: for every six-tuple with each field inside its range in the field table,
the string that `"%02d/%02d/%04d %02d:%02d:%02d"` produces is accepted by the
scan `"%d/%d/%d %d:%d:%d%n"` with its whole-input test, which returns the
six-tuple. -/
theorem string_round_trip (dd mon yy hh mm ss : Int)
    (h1 : 1 ≤ dd ∧ dd ≤ 31) (h2 : 1 ≤ mon ∧ mon ≤ 12) (h3 : 0 ≤ yy ∧ yy ≤ 9999)
    (h4 : 0 ≤ hh ∧ hh ≤ 24) (h5 : 0 ≤ mm ∧ mm ≤ 60) (h6 : 0 ≤ ss ∧ ss ≤ 60) :
    parse_datetime (sprintf_datetime dd mon yy hh mm ss) = some [dd, mon, yy, hh, mm, ss] := by
  unfold parse_datetime sscanf_datetime
  rw [scan_run_sprintf dd mon yy hh mm ss (by omega) (by omega) (by omega) (by omega)
    (by omega) (by omega)]
  simp

/-- C3 at 15/06/2024 09:30:45: the formatter produces that string, and the
parser returns day 15, month 6, year 2024, hour 9, minute 30, second 45 for it. -/
theorem string_round_trip_witness :
    sprintf_datetime 15 6 2024 9 30 45 = "15/06/2024 09:30:45".toList ∧
    parse_datetime "15/06/2024 09:30:45".toList = some [15, 6, 2024, 9, 30, 45] := by
  have e : sprintf_datetime 15 6 2024 9 30 45 = "15/06/2024 09:30:45".toList := by decide
  have h := string_round_trip 15 6 2024 9 30 45 (by decide) (by decide) (by decide)
    (by decide) (by decide) (by decide)
  rw [e] at h
  exact ⟨e, h⟩

/-- C7: when the parser accepts `s`, it rejects `s` followed by any non-empty
string whose first character `c` is not a decimal digit, and `set` and `setalarm`
given that longer string fail with `invalid datetime format` and leave the
hardware as it was. -/
theorem trailing_content_rejected (s : List Char) (c : Char) (cs : List Char)
    (hacc : parse_datetime s ≠ none) (hc : isdigit c = false) :
    parse_datetime (s ++ c :: cs) = none ∧
    ∀ hw : LPC,
      mbed_rtc_set (.str (s ++ c :: cs)) hw = ⟨hw, some (.error "invalid datetime format")⟩ ∧
      mbed_rtc_setalarm (.str (s ++ c :: cs)) hw =
        ⟨hw, some (.error "invalid datetime format")⟩ := by
  cases hp : parse_datetime s with
  | none => exact absurd hp hacc
  | some vals =>
    have hrej := parse_datetime_append s c cs vals hp hc
    refine ⟨hrej, fun hw => ⟨?_, ?_⟩⟩
    · simp only [mbed_rtc_set, hrej]
    · simp only [mbed_rtc_setalarm, hrej]

/-- C7 at `15/06/2024 09:30:45` followed by a space. -/
theorem trailing_content_rejected_witness :
    parse_datetime "15/06/2024 09:30:45".toList ≠ none ∧
    parse_datetime "15/06/2024 09:30:45 ".toList = none ∧
    mbed_rtc_set (.str "15/06/2024 09:30:45 ".toList) sample_hw =
      ⟨sample_hw, some (.error "invalid datetime format")⟩ :=
  have h := trailing_content_rejected "15/06/2024 09:30:45".toList ' ' [] (by decide) (by decide)
  ⟨by decide, h.1, (h.2 sample_hw).1⟩

/-! ## `mbed.rtc.setalarm` -/

theorem check_fields_nil (t : LuaTable) (ks : List String) (k : String) (hk : k ∈ ks)
    (hnil : t k = .nil) : check_fields t ks = none := by
  induction ks with
  | nil => simp at hk
  | cons a as ih =>
    rcases List.mem_cons.1 hk with rfl | hk
    · simp [check_fields, hnil, luaL_checkinteger]
    · cases ha : luaL_checkinteger (t a) with
      | none => simp [check_fields, ha]
      | some v => simp [check_fields, ha, ih hk]

/-- The range checks pass exactly for day 1..31, month 1..12, year 0..9999,
hour 0..23, minute 0..59 and second 0..59. -/
theorem alarm_check_none (dd mon yy hh mm ss : Int) :
    alarm_check dd mon yy hh mm ss = none ↔
      (1 ≤ dd ∧ dd ≤ 31) ∧ (1 ≤ mon ∧ mon ≤ 12) ∧ (0 ≤ yy ∧ yy ≤ 9999) ∧
      (0 ≤ hh ∧ hh ≤ 23) ∧ (0 ≤ mm ∧ mm ≤ 59) ∧ (0 ≤ ss ∧ ss ≤ 59) := by
  unfold alarm_check
  constructor
  · intro h
    split_ifs at h
    omega
  · intro h
    rw [if_neg (by omega), if_neg (by omega), if_neg (by omega), if_neg (by omega),
      if_neg (by omega), if_neg (by omega)]

theorem setalarm_commit_err (dd mon yy hh mm ss : Int) (hw : LPC) :
    (setalarm_commit [dd, mon, yy, hh, mm, ss] hw).err = none ↔
      alarm_check dd mon yy hh mm ss = none := by
  unfold setalarm_commit
  cases h : alarm_check dd mon yy hh mm ss with
  | none => simp only [h]
  | some msg => simp only [h, reduceCtorEq]

/-- C6, on the code: a record with day 1, month 1, year 2000, hour 24, minute 0,
second 0 has every field inside the range table used by `set`, and `set` accepts
it, but `setalarm` rejects it with `invalid hour`; so it does the string
`01/01/2000 24:00:00`. -/
theorem setalarm_rejects_hour_24 :
    ((1 ≤ (1 : Int) ∧ (1 : Int) ≤ 31) ∧ (1 ≤ (1 : Int) ∧ (1 : Int) ≤ 12) ∧
      (0 ≤ (2000 : Int) ∧ (2000 : Int) ≤ 9999) ∧ (0 ≤ (24 : Int) ∧ (24 : Int) ≤ 24) ∧
      (0 ≤ (0 : Int) ∧ (0 : Int) ≤ 60) ∧ (0 ≤ (0 : Int) ∧ (0 : Int) ≤ 60)) ∧
    (mbed_rtc_set (.table alarm_hour24) sample_hw).err = none ∧
    (mbed_rtc_setalarm (.table alarm_hour24) sample_hw).err = some (.error "invalid hour") ∧
    parse_datetime "01/01/2000 24:00:00".toList = some [1, 1, 2000, 24, 0, 0] ∧
    (mbed_rtc_setalarm (.str "01/01/2000 24:00:00".toList) sample_hw).err =
      some (.error "invalid hour") := by
  decide

/-- C6 as amended: for a six-tuple given as a well-formed string or as a record
whose six fields hold numbers, `setalarm` succeeds exactly when day is in 1..31,
month in 1..12, year in 0..9999, hour in 0..23, minute in 0..59 and second in
0..59. -/
theorem setalarm_validation (arg : LuaArg) (dd mon yy hh mm ss : Int) (hw : LPC)
    (harg : (∃ s, arg = .str s ∧ parse_datetime s = some [dd, mon, yy, hh, mm, ss]) ∨
      (∃ t, arg = .table t ∧ t "day" = .number dd ∧ t "month" = .number mon ∧
        t "year" = .number yy ∧ t "hour" = .number hh ∧ t "min" = .number mm ∧
        t "sec" = .number ss)) :
    (mbed_rtc_setalarm arg hw).err = none ↔
      (1 ≤ dd ∧ dd ≤ 31) ∧ (1 ≤ mon ∧ mon ≤ 12) ∧ (0 ≤ yy ∧ yy ≤ 9999) ∧
      (0 ≤ hh ∧ hh ≤ 23) ∧ (0 ≤ mm ∧ mm ≤ 59) ∧ (0 ≤ ss ∧ ss ≤ 59) := by
  rw [← alarm_check_none, ← setalarm_commit_err dd mon yy hh mm ss hw]
  rcases harg with ⟨s, rfl, hs⟩ | ⟨t, rfl, h1, h2, h3, h4, h5, h6⟩
  · simp only [mbed_rtc_setalarm, hs]
  · have hc : check_fields t mbed_datetime_names = some [dd, mon, yy, hh, mm, ss] := by
      simp only [check_fields, mbed_datetime_names, h1, h2, h3, h4, h5, h6, luaL_checkinteger]
    simp only [mbed_rtc_setalarm, hc]

/-- C6 as amended, at an alarm for 23:59:59 given as a string, which is
accepted, and for 24:00:00 given as a record, which is not. -/
theorem setalarm_validation_witness :
    (mbed_rtc_setalarm (.str "01/01/2000 23:59:59".toList) sample_hw).err = none ∧
    (mbed_rtc_setalarm (.table alarm_hour24) sample_hw).err ≠ none :=
  ⟨(setalarm_validation (.str "01/01/2000 23:59:59".toList) 1 1 2000 23 59 59 sample_hw
      (Or.inl ⟨_, rfl, by decide⟩)).2 (by decide),
   fun h => absurd
     ((setalarm_validation (.table alarm_hour24) 1 1 2000 24 0 0 sample_hw
      (Or.inr ⟨_, rfl, rfl, rfl, rfl, rfl, rfl, rfl⟩)).1 h) (by decide)⟩

/-- C8: `setalarm` given a record that lacks one of the six keys fails, with the
error `luaL_checkinteger` raises on the missing field, whatever the other fields
hold. -/
theorem setalarm_missing_field (t : LuaTable) (hw : LPC) (k : String)
    (hk : k ∈ mbed_datetime_names) (hnil : t k = .nil) :
    (mbed_rtc_setalarm (.table t) hw).err = some (.badarg "number") := by
  simp only [mbed_rtc_setalarm, check_fields_nil t mbed_datetime_names k hk hnil]

/-- C8 at a record that lacks only `year`, its other fields in range: `setalarm`
fails, while `set` accepts the same record. -/
theorem setalarm_missing_field_witness :
    (mbed_rtc_setalarm (.table no_year) sample_hw).err = some (.badarg "number") ∧
    (mbed_rtc_set (.table no_year) sample_hw).err = none :=
  ⟨setalarm_missing_field no_year sample_hw "year" (by decide) rfl, by decide⟩

/-- C9: when `setalarm` fails, for whatever reason and on whatever argument, the
hardware state (every RTC register, the alarm bank and the alarm mask included)
is what it was before the call. -/
theorem setalarm_failure_writes_nothing (arg : LuaArg) (hw : LPC)
    (hfail : (mbed_rtc_setalarm arg hw).err ≠ none) :
    (mbed_rtc_setalarm arg hw).hw = hw := by
  have hcommit : ∀ vals, (setalarm_commit vals hw).err ≠ none →
      (setalarm_commit vals hw).hw = hw := by
    intro vals hne
    unfold setalarm_commit at hne ⊢
    split
    · split
      · rfl
      · rename_i h
        simp only [h] at hne
        exact absurd rfl hne
    · rfl
  cases arg with
  | str data =>
    cases hp : parse_datetime data with
    | none => simp only [mbed_rtc_setalarm, hp]
    | some vals =>
      simp only [mbed_rtc_setalarm, hp] at hfail ⊢
      exact hcommit vals hfail
  | table t =>
    cases hp : check_fields t mbed_datetime_names with
    | none => simp only [mbed_rtc_setalarm, hp]
    | some vals =>
      simp only [mbed_rtc_setalarm, hp] at hfail ⊢
      exact hcommit vals hfail
  | other => rfl

/-- C9 at a malformed string, at a record without `year` and at a record with
hour 24: each call fails and leaves the state as it was. -/
theorem setalarm_failure_writes_nothing_witness :
    (mbed_rtc_setalarm (.str "15/06/2024".toList) sample_hw).err ≠ none ∧
    (mbed_rtc_setalarm (.str "15/06/2024".toList) sample_hw).hw = sample_hw ∧
    (mbed_rtc_setalarm (.table no_year) sample_hw).hw = sample_hw ∧
    (mbed_rtc_setalarm (.table alarm_hour24) sample_hw).hw = sample_hw :=
  ⟨by decide,
   setalarm_failure_writes_nothing (.str "15/06/2024".toList) sample_hw (by decide),
   setalarm_failure_writes_nothing (.table no_year) sample_hw (by decide),
   setalarm_failure_writes_nothing (.table alarm_hour24) sample_hw (by decide)⟩

/-! ## `mbed.rtc.alarmed` -/

theorem ilr_returned_bit (x : Nat) : ((x &&& 2) >>> 1 != 0) = x.testBit 1 := by
  have h := Nat.and_two_pow x 1
  simp only [pow_one] at h
  rw [h]
  cases x.testBit 1 <;> simp

theorem ilr_cleared_bit (x : Nat) :
    (ILR_write x (narrow 8 ((x ||| 2 : Nat) : Int))).testBit 1 = false := by
  have e : narrow 8 ((x ||| 2 : Nat) : Int) = (x ||| 2) % 2 ^ 8 := by
    unfold narrow
    omega
  have h2 : Nat.testBit 2 1 = true := by decide
  rw [e, ILR_write, Nat.testBit_ldiff, Nat.testBit_mod_two_pow, Nat.testBit_or, h2]
  simp

/-- C10: `alarmed()` returns true exactly when the alarm-match bit (bit 1 of
`ILR`) is set, it leaves that bit clear in either case, and a second `alarmed()`
on the state the first one leaves returns false. -/
theorem alarmed_read_and_clear (hw : LPC) :
    (mbed_rtc_alarmed hw).1 = hw.ILR.testBit 1 ∧
    (mbed_rtc_alarmed hw).2.ILR.testBit 1 = false ∧
    (mbed_rtc_alarmed (mbed_rtc_alarmed hw).2).1 = false := by
  have hclear : (mbed_rtc_alarmed hw).2.ILR.testBit 1 = false := ilr_cleared_bit hw.ILR
  refine ⟨ilr_returned_bit hw.ILR, hclear, ?_⟩
  have h := ilr_returned_bit (mbed_rtc_alarmed hw).2.ILR
  rw [hclear] at h
  exact h

/-! ## The clock registers across calls -/

/-- C11, on the code: from a state whose six clock registers are inside their
ranges, the single call of `set` with the string `15/13/2024 09:30:45` succeeds
and leaves 13 in the month register, outside 1..12. -/
theorem clock_range_broken_by_set_string :
    clock_in_range sample_hw ∧
    (mbed_rtc_set (.str "15/13/2024 09:30:45".toList) sample_hw).err = none ∧
    (mbed_rtc_set (.str "15/13/2024 09:30:45".toList) sample_hw).hw.MONTH = 13 ∧
    ¬ clock_in_range (mbed_rtc_set (.str "15/13/2024 09:30:45".toList) sample_hw).hw := by
  decide

/-- No register of the table is the clock control register. -/
theorem regs_ne_ccr (i : Nat) : mbed_datetime_regs.getD i .DOM ≠ .CCR := by
  unfold mbed_datetime_regs
  match i with
  | 0 => decide
  | 1 => decide
  | 2 => decide
  | 3 => decide
  | 4 => decide
  | 5 => decide
  | n + 6 => simp [List.getD]

/-- C17, on the code: `set` given a record never writes the clock control
register, whatever the record and the state; called with `hour = 10` while the
clock is stopped it succeeds, stores the hour, and leaves `CCR` at 0, not 0x11. -/
theorem set_record_leaves_ccr :
    (∀ (t : LuaTable) (hw : LPC), (mbed_rtc_set (.table t) hw).hw.CCR = hw.CCR) ∧
    stopped_hw.CCR = 0 ∧
    (mbed_rtc_set (.table (only_hour 10)) stopped_hw).err = none ∧
    (mbed_rtc_set (.table (only_hour 10)) stopped_hw).hw.HOUR = 10 ∧
    (mbed_rtc_set (.table (only_hour 10)) stopped_hw).hw.CCR = 0 := by
  refine ⟨?_, rfl, by decide, by decide, by decide⟩
  intro t hw
  exact set_fields_frame t (List.range 6) hw .CCR
    (fun i _ h => absurd h (regs_ne_ccr i))

/-- C19: a value that passes the range check of field `i` is not changed by the
store the record branch of `set` makes for that field, which narrows it to 16
bits for the year (index 2) and to 8 bits for every other field. -/
theorem validated_store_keeps_value (i : Nat) (hi : i < 6) (v : Int)
    (hv : ([1, 1, 0, 0, 0, 0] : List Int).getD i 0 ≤ v ∧
      v ≤ ([31, 12, 9999, 24, 60, 60] : List Int).getD i 0) :
    (narrow (cast_width i) v : Int) = v ∧
    (i = 2 → cast_width i = 16 ∧ v % 2 ^ 16 = v) ∧
    (i ≠ 2 → cast_width i = 8 ∧ v % 2 ^ 8 = v) := by
  refine ⟨narrow_in_range i hi v hv, ?_, ?_⟩
  · intro h2
    subst h2
    simp at hv
    exact ⟨rfl, by omega⟩
  · intro h2
    refine ⟨by simp [cast_width, h2], ?_⟩
    interval_cases i <;> simp at hv h2 ⊢ <;> omega

/-- C19 at the largest year and the largest day. -/
theorem validated_store_keeps_value_witness :
    (narrow 16 9999 : Int) = 9999 ∧ (9999 : Int) % 2 ^ 16 = 9999 ∧
    (narrow 8 31 : Int) = 31 ∧ (31 : Int) % 2 ^ 8 = 31 :=
  ⟨(validated_store_keeps_value 2 (by decide) 9999 (by decide)).1,
   ((validated_store_keeps_value 2 (by decide) 9999 (by decide)).2.1 rfl).2,
   (validated_store_keeps_value 0 (by decide) 31 (by decide)).1,
   ((validated_store_keeps_value 0 (by decide) 31 (by decide)).2.2 (by decide)).2⟩

/-! ## The commit of a time and of an alarm -/

theorem narrow_small (w : Nat) (v : Int) (h0 : 0 ≤ v) (h1 : v < 2 ^ w) :
    (narrow w v : Int) = v := by
  unfold narrow
  rw [Int.emod_eq_of_lt h0 h1]
  exact Int.toNat_of_nonneg h0

theorem narrow_small_nat (w : Nat) (v : Int) (n : Nat) (h0 : 0 ≤ v) (h1 : v < 2 ^ w)
    (hn : (n : Int) = v) : narrow w v = n := by
  have h := narrow_small w v h0 h1
  omega

/-- The store the loop makes for field `i` through its cast pointer is the
assignment of the value to the register of field `i`. -/
theorem put_cast_eq_assign (hw : LPC) (i : Nat) (v : Int) :
    hw.put (mbed_datetime_regs.getD i .DOM) (narrow (cast_width i) v) =
      hw.assign (mbed_datetime_regs.getD i .DOM) v := by
  match i with
  | 0 => rfl
  | 1 => rfl
  | 2 => rfl
  | 3 => rfl
  | 4 => rfl
  | 5 => rfl
  | n + 6 =>
    have e : mbed_datetime_regs.getD (n + 6) .DOM = .DOM := by simp [mbed_datetime_regs]
    have c : cast_width (n + 6) = 8 := by simp [cast_width]
    rw [e, c]
    rfl

/-- The state the loop leaves is the state its writes produce, made one after
the other in their order. -/
theorem set_fields_replay (t : LuaTable) (is : List Nat) (hw : LPC) :
    (set_fields t is hw).hw =
      (set_fields_writes t is).foldl (fun st w => st.assign w.1 w.2) hw := by
  induction is generalizing hw with
  | nil => rfl
  | cons i rest ih =>
    rcases number_or_not (t (mbed_datetime_names.getD i "")) with ⟨v, h⟩ | h
    · by_cases hb : v < mbed_datetime_min.getD i 0 ∨ v > mbed_datetime_max.getD i 0
      · rw [set_fields_cons_bad t i rest hw v h hb]
        simp only [set_fields_writes, h, hb, if_true, List.foldl_nil]
      · rw [set_fields_cons_good t i rest hw v h hb, ih, put_cast_eq_assign]
        simp only [set_fields_writes, h, hb, if_false, List.foldl_cons]
    · rw [set_fields_cons_skip t i rest hw h, ih]
      cases h2 : t (mbed_datetime_names.getD i "") with
      | number v => exact absurd h2 (h v)
      | nil => simp only [set_fields_writes, h2]
      | numstr n => simp only [set_fields_writes, h2]
      | other => simp only [set_fields_writes, h2]

/-- The state a call of `mbed_rtc_set` leaves is the state its register writes
produce, made one after the other in their order. -/
theorem mbed_rtc_set_replay (arg : LuaArg) (hw : LPC) :
    (mbed_rtc_set arg hw).hw =
      (mbed_rtc_set_writes arg).foldl (fun st w => st.assign w.1 w.2) hw := by
  cases arg with
  | str data =>
    simp only [mbed_rtc_set, mbed_rtc_set_writes]
    split <;> rfl
  | table t => exact set_fields_replay t (List.range 6) hw
  | other => rfl

/-- C16: `set` given a well-formed string whose six fields are in range makes
exactly these register writes, in this order: `CCR` 0 (clock stopped), hour,
minute, second, year, month, day, `CCR` 0x11 (clock enabled, calibration
disabled); the call raises no error, the state it leaves is the one these writes
produce one after the other, and in that state the six clock registers hold the
six parsed values and `CCR` holds 0x11. -/
theorem set_string_commit (s : List Char) (d m y h mi sec : Int) (hw : LPC)
    (hp : parse_datetime s = some [d, m, y, h, mi, sec])
    (h1 : 1 ≤ d ∧ d ≤ 31) (h2 : 1 ≤ m ∧ m ≤ 12) (h3 : 0 ≤ y ∧ y ≤ 9999)
    (h4 : 0 ≤ h ∧ h ≤ 24) (h5 : 0 ≤ mi ∧ mi ≤ 60) (h6 : 0 ≤ sec ∧ sec ≤ 60) :
    mbed_rtc_set_writes (.str s) =
      [(Reg.CCR, (0 : Int)), (Reg.HOUR, h), (Reg.MIN, mi), (Reg.SEC, sec),
       (Reg.YEAR, y), (Reg.MONTH, m), (Reg.DOM, d), (Reg.CCR, 0x11)] ∧
    mbed_rtc_set (.str s) hw =
      ⟨(mbed_rtc_set_writes (.str s)).foldl (fun st w => st.assign w.1 w.2) hw, none⟩ ∧
    mbed_rtc_set (.str s) hw =
      ⟨([(Reg.CCR, (0 : Int)), (Reg.HOUR, h), (Reg.MIN, mi), (Reg.SEC, sec),
         (Reg.YEAR, y), (Reg.MONTH, m), (Reg.DOM, d), (Reg.CCR, 0x11)]).foldl
        (fun st w => st.assign w.1 w.2) hw, none⟩ ∧
    ((mbed_rtc_set (.str s) hw).hw.DOM : Int) = d ∧
    ((mbed_rtc_set (.str s) hw).hw.MONTH : Int) = m ∧
    ((mbed_rtc_set (.str s) hw).hw.YEAR : Int) = y ∧
    ((mbed_rtc_set (.str s) hw).hw.HOUR : Int) = h ∧
    ((mbed_rtc_set (.str s) hw).hw.MIN : Int) = mi ∧
    ((mbed_rtc_set (.str s) hw).hw.SEC : Int) = sec ∧
    (mbed_rtc_set (.str s) hw).hw.CCR = 0x11 := by
  have hset : mbed_rtc_set (.str s) hw = ⟨platform_rtc_set d m y h mi sec hw, none⟩ := by
    simp only [mbed_rtc_set, hp]
  have hwr : mbed_rtc_set_writes (.str s) = platform_rtc_set_writes d m y h mi sec := by
    simp only [mbed_rtc_set_writes, hp]
  have hlist : platform_rtc_set_writes d m y h mi sec =
      [(Reg.CCR, (0 : Int)), (Reg.HOUR, h), (Reg.MIN, mi), (Reg.SEC, sec),
       (Reg.YEAR, y), (Reg.MONTH, m), (Reg.DOM, d), (Reg.CCR, 0x11)] := rfl
  rw [hset, hwr]
  refine ⟨hlist, rfl, rfl, ?_, ?_, ?_, ?_, ?_, ?_, rfl⟩
  · exact narrow_small 8 d (by omega) (by norm_num; omega)
  · exact narrow_small 8 m (by omega) (by norm_num; omega)
  · exact narrow_small 16 y (by omega) (by norm_num; omega)
  · exact narrow_small 8 h (by omega) (by norm_num; omega)
  · exact narrow_small 8 mi (by omega) (by norm_num; omega)
  · exact narrow_small 8 sec (by omega) (by norm_num; omega)

/-- C16 at the string `15/06/2024 09:30:45`, from a state whose clock is
stopped: the eight writes in their order, and afterwards the clock reads the
parsed values and `CCR` holds 0x11. -/
theorem set_string_commit_witness :
    mbed_rtc_set_writes (.str "15/06/2024 09:30:45".toList) =
      [(Reg.CCR, (0 : Int)), (Reg.HOUR, 9), (Reg.MIN, 30), (Reg.SEC, 45),
       (Reg.YEAR, 2024), (Reg.MONTH, 6), (Reg.DOM, 15), (Reg.CCR, 0x11)] ∧
    (mbed_rtc_set (.str "15/06/2024 09:30:45".toList) stopped_hw).hw.DOM = 15 ∧
    (mbed_rtc_set (.str "15/06/2024 09:30:45".toList) stopped_hw).hw.YEAR = 2024 ∧
    (mbed_rtc_set (.str "15/06/2024 09:30:45".toList) stopped_hw).hw.SEC = 45 ∧
    (mbed_rtc_set (.str "15/06/2024 09:30:45".toList) stopped_hw).hw.CCR = 0x11 := by
  have h := set_string_commit "15/06/2024 09:30:45".toList 15 6 2024 9 30 45 stopped_hw
    (by decide) (by decide) (by decide) (by decide) (by decide) (by decide) (by decide)
  refine ⟨h.1, ?_, ?_, ?_, h.2.2.2.2.2.2.2.2.2⟩
  · exact_mod_cast h.2.2.2.1
  · exact_mod_cast h.2.2.2.2.2.1
  · exact_mod_cast h.2.2.2.2.2.2.2.2.1

/-- The state `platform_rtc_setalarm` leaves, register by register, when the six
values fit their registers. -/
theorem platform_rtc_setalarm_regs (dd mon yy hh mm ss : Int) (hw : LPC)
    (h1 : 0 ≤ dd ∧ dd < 256) (h2 : 0 ≤ mon ∧ mon < 256) (h3 : 0 ≤ yy ∧ yy < 65536)
    (h4 : 0 ≤ hh ∧ hh < 256) (h5 : 0 ≤ mm ∧ mm < 256) (h6 : 0 ≤ ss ∧ ss < 256) :
    ((platform_rtc_setalarm dd mon yy hh mm ss hw).ALDOM : Int) = dd ∧
    ((platform_rtc_setalarm dd mon yy hh mm ss hw).ALMON : Int) = mon ∧
    ((platform_rtc_setalarm dd mon yy hh mm ss hw).ALYEAR : Int) = yy ∧
    ((platform_rtc_setalarm dd mon yy hh mm ss hw).ALHOUR : Int) = hh ∧
    ((platform_rtc_setalarm dd mon yy hh mm ss hw).ALMIN : Int) = mm ∧
    ((platform_rtc_setalarm dd mon yy hh mm ss hw).ALSEC : Int) = ss ∧
    (platform_rtc_setalarm dd mon yy hh mm ss hw).AMR = (1 <<< 4) ||| (1 <<< 5) ∧
    (platform_rtc_setalarm dd mon yy hh mm ss hw).DOM = hw.DOM ∧
    (platform_rtc_setalarm dd mon yy hh mm ss hw).MONTH = hw.MONTH ∧
    (platform_rtc_setalarm dd mon yy hh mm ss hw).YEAR = hw.YEAR ∧
    (platform_rtc_setalarm dd mon yy hh mm ss hw).HOUR = hw.HOUR ∧
    (platform_rtc_setalarm dd mon yy hh mm ss hw).MIN = hw.MIN ∧
    (platform_rtc_setalarm dd mon yy hh mm ss hw).SEC = hw.SEC ∧
    (platform_rtc_setalarm dd mon yy hh mm ss hw).CCR = hw.CCR := by
  have hamr : narrow 8 (1 <<< 4 ||| 1 <<< 5) = (1 <<< 4) ||| (1 <<< 5) := by decide
  simp only [platform_rtc_setalarm, platform_rtc_setalarm_writes, List.foldl_cons,
    List.foldl_nil, LPC.assign, LPC.put, LPC.ILR_or, Reg.width, hamr]
  refine ⟨?_, ?_, ?_, ?_, ?_, ?_, trivial, trivial, trivial, trivial, trivial, trivial,
    trivial, trivial⟩
  · exact narrow_small 8 dd h1.1 (by norm_num; omega)
  · exact narrow_small 8 mon h2.1 (by norm_num; omega)
  · exact narrow_small 16 yy h3.1 (by norm_num; omega)
  · exact narrow_small 8 hh h4.1 (by norm_num; omega)
  · exact narrow_small 8 mm h5.1 (by norm_num; omega)
  · exact narrow_small 8 ss h6.1 (by norm_num; omega)

/-- C18: when `setalarm` accepts its argument (a string that parses to the six
values, or a record whose six fields convert to them), the six alarm registers
hold the six values afterwards, `AMR` holds `(1<<4)|(1<<5)`, and the six clock
registers and `CCR` hold what they held before. -/
theorem setalarm_commit_registers (arg : LuaArg) (dd mon yy hh mm ss : Int) (hw : LPC)
    (harg : (∃ s, arg = .str s ∧ parse_datetime s = some [dd, mon, yy, hh, mm, ss]) ∨
      (∃ t, arg = .table t ∧
        check_fields t mbed_datetime_names = some [dd, mon, yy, hh, mm, ss]))
    (hok : (mbed_rtc_setalarm arg hw).err = none) :
    ((mbed_rtc_setalarm arg hw).hw.ALDOM : Int) = dd ∧
    ((mbed_rtc_setalarm arg hw).hw.ALMON : Int) = mon ∧
    ((mbed_rtc_setalarm arg hw).hw.ALYEAR : Int) = yy ∧
    ((mbed_rtc_setalarm arg hw).hw.ALHOUR : Int) = hh ∧
    ((mbed_rtc_setalarm arg hw).hw.ALMIN : Int) = mm ∧
    ((mbed_rtc_setalarm arg hw).hw.ALSEC : Int) = ss ∧
    (mbed_rtc_setalarm arg hw).hw.AMR = (1 <<< 4) ||| (1 <<< 5) ∧
    (mbed_rtc_setalarm arg hw).hw.DOM = hw.DOM ∧
    (mbed_rtc_setalarm arg hw).hw.MONTH = hw.MONTH ∧
    (mbed_rtc_setalarm arg hw).hw.YEAR = hw.YEAR ∧
    (mbed_rtc_setalarm arg hw).hw.HOUR = hw.HOUR ∧
    (mbed_rtc_setalarm arg hw).hw.MIN = hw.MIN ∧
    (mbed_rtc_setalarm arg hw).hw.SEC = hw.SEC ∧
    (mbed_rtc_setalarm arg hw).hw.CCR = hw.CCR := by
  have hcommit : mbed_rtc_setalarm arg hw = setalarm_commit [dd, mon, yy, hh, mm, ss] hw := by
    rcases harg with ⟨s, rfl, hs⟩ | ⟨t, rfl, ht⟩
    · simp only [mbed_rtc_setalarm, hs]
    · simp only [mbed_rtc_setalarm, ht]
  rw [hcommit] at hok ⊢
  have hchk := (setalarm_commit_err dd mon yy hh mm ss hw).1 hok
  have hr := (alarm_check_none dd mon yy hh mm ss).1 hchk
  have hstate : setalarm_commit [dd, mon, yy, hh, mm, ss] hw =
      ⟨platform_rtc_setalarm dd mon yy hh mm ss hw, none⟩ := by
    simp only [setalarm_commit, hchk]
  rw [hstate]
  exact platform_rtc_setalarm_regs dd mon yy hh mm ss hw (by omega) (by omega) (by omega)
    (by omega) (by omega) (by omega)

/-- C18 at the alarm `15/06/2024 09:30:45`, given as a string. -/
theorem setalarm_commit_registers_witness :
    (mbed_rtc_setalarm (.str "15/06/2024 09:30:45".toList) sample_hw).hw.ALDOM = 15 ∧
    (mbed_rtc_setalarm (.str "15/06/2024 09:30:45".toList) sample_hw).hw.ALYEAR = 2024 ∧
    (mbed_rtc_setalarm (.str "15/06/2024 09:30:45".toList) sample_hw).hw.AMR = 0x30 ∧
    (mbed_rtc_setalarm (.str "15/06/2024 09:30:45".toList) sample_hw).hw.YEAR = 2000 ∧
    (mbed_rtc_setalarm (.str "15/06/2024 09:30:45".toList) sample_hw).hw.CCR = 17 := by
  have h := setalarm_commit_registers (.str "15/06/2024 09:30:45".toList) 15 6 2024 9 30 45
    sample_hw (Or.inl ⟨_, rfl, by decide⟩) (by decide)
  refine ⟨?_, ?_, h.2.2.2.2.2.2.1, h.2.2.2.2.2.2.2.2.2.1, h.2.2.2.2.2.2.2.2.2.2.2.2.2⟩
  · exact_mod_cast h.1
  · exact_mod_cast h.2.2.1

/-! ## `mbed.rtc.get` -/

theorem decimal_rev_small (fuel n : Nat) (hf : 0 < fuel) (hn : n < 10) :
    decimal_rev fuel n = [digit_char n] := by
  obtain ⟨k, rfl⟩ : ∃ k, fuel = k + 1 := ⟨fuel - 1, by omega⟩
  simp only [decimal_rev, hn, if_true]

theorem decimal_rev_large (fuel n : Nat) (hf : 0 < fuel) (hn : 10 ≤ n) :
    decimal_rev fuel n = digit_char (n % 10) :: decimal_rev (fuel - 1) (n / 10) := by
  obtain ⟨k, rfl⟩ : ∃ k, fuel = k + 1 := ⟨fuel - 1, by omega⟩
  have h : ¬ n < 10 := by omega
  simp only [decimal_rev, h, if_false, Nat.add_sub_cancel]

theorem digit_char_zero : digit_char 0 = '0' := rfl

/-- The output of `%02d` for a value below 100: its two decimal digits. -/
theorem format_d_two (n : Nat) (hn : n < 100) :
    format_d 2 (n : Int) = [digit_char (n / 10), digit_char (n % 10)] := by
  have hneg : ¬ ((n : Int) < 0) := by omega
  simp only [format_d, hneg, if_false, Int.natAbs_ofNat, decimal]
  by_cases h1 : n < 10
  · rw [decimal_rev_small (n + 1) n (by omega) h1]
    have h0 : n / 10 = 0 := by omega
    have h2 : n % 10 = n := by omega
    rw [h0, h2, digit_char_zero]
    rfl
  · rw [decimal_rev_large (n + 1) n (by omega) (by omega),
      decimal_rev_small (n + 1 - 1) (n / 10) (by omega) (by omega)]
    rfl

/-- The output of `%04d` for a value below 10000: its four decimal digits. -/
theorem format_d_four (n : Nat) (hn : n < 10000) :
    format_d 4 (n : Int) =
      [digit_char (n / 1000), digit_char (n / 100 % 10), digit_char (n / 10 % 10),
        digit_char (n % 10)] := by
  have hneg : ¬ ((n : Int) < 0) := by omega
  simp only [format_d, hneg, if_false, Int.natAbs_ofNat, decimal]
  by_cases h1 : n < 10
  · rw [decimal_rev_small (n + 1) n (by omega) h1]
    have e1 : n / 1000 = 0 := by omega
    have e2 : n / 100 % 10 = 0 := by omega
    have e3 : n / 10 % 10 = 0 := by omega
    have e4 : n % 10 = n := by omega
    rw [e1, e2, e3, e4, digit_char_zero]
    rfl
  · rw [decimal_rev_large (n + 1) n (by omega) (by omega)]
    by_cases h2 : n < 100
    · rw [decimal_rev_small (n + 1 - 1) (n / 10) (by omega) (by omega)]
      have e1 : n / 1000 = 0 := by omega
      have e2 : n / 100 % 10 = 0 := by omega
      have e3 : n / 10 % 10 = n / 10 := by omega
      rw [e1, e2, e3, digit_char_zero]
      rfl
    · rw [decimal_rev_large (n + 1 - 1) (n / 10) (by omega) (by omega)]
      by_cases h3 : n < 1000
      · rw [decimal_rev_small (n + 1 - 1 - 1) (n / 10 / 10) (by omega) (by omega)]
        have e1 : n / 1000 = 0 := by omega
        have e2 : n / 100 % 10 = n / 10 / 10 := by omega
        rw [e1, e2, digit_char_zero]
        rfl
      · rw [decimal_rev_large (n + 1 - 1 - 1) (n / 10 / 10) (by omega) (by omega),
          decimal_rev_small (n + 1 - 1 - 1 - 1) (n / 10 / 10 / 10) (by omega) (by omega)]
        have e1 : n / 1000 = n / 10 / 10 / 10 := by omega
        have e2 : n / 100 % 10 = n / 10 / 10 % 10 := by omega
        rw [e1, e2]
        rfl

/-- The date and time that `sprintf` produces from clock registers inside their
ranges, character by character. -/
theorem sprintf_in_range (hw : LPC) (hr : clock_in_range hw) :
    sprintf_datetime hw.DOM hw.MONTH hw.YEAR hw.HOUR hw.MIN hw.SEC =
      [digit_char (hw.DOM / 10), digit_char (hw.DOM % 10), '/',
       digit_char (hw.MONTH / 10), digit_char (hw.MONTH % 10), '/',
       digit_char (hw.YEAR / 1000), digit_char (hw.YEAR / 100 % 10),
       digit_char (hw.YEAR / 10 % 10), digit_char (hw.YEAR % 10), ' ',
       digit_char (hw.HOUR / 10), digit_char (hw.HOUR % 10), ':',
       digit_char (hw.MIN / 10), digit_char (hw.MIN % 10), ':',
       digit_char (hw.SEC / 10), digit_char (hw.SEC % 10)] := by
  obtain ⟨⟨_, h1⟩, ⟨_, h2⟩, h3, h4, h5, h6⟩ := hr
  unfold sprintf_datetime
  rw [format_d_two hw.DOM (by omega), format_d_two hw.MONTH (by omega),
    format_d_four hw.YEAR (by omega), format_d_two hw.HOUR (by omega),
    format_d_two hw.MIN (by omega), format_d_two hw.SEC (by omega)]
  rfl

theorem get_string_result (hw : LPC) (hr : clock_in_range hw) :
    (mbed_rtc_get (.str "*s".toList) hw).1 =
      .value (.str (sprintf_datetime hw.DOM hw.MONTH hw.YEAR hw.HOUR hw.MIN hw.SEC)) := by
  have hlen : (sprintf_datetime hw.DOM hw.MONTH hw.YEAR hw.HOUR hw.MIN hw.SEC).length < 20 := by
    rw [sprintf_in_range hw hr]
    simp only [List.length_cons, List.length_nil]
    omega
  simp only [mbed_rtc_get, platform_rtc_get, List.getD_cons_zero, List.getD_cons_succ, if_true,
    hlen]

/-- C14: when the six clock registers are inside their ranges, `get("*s")`
returns a string of exactly 19 characters, which fits the 20 bytes of `buff` with
its terminator: two digits of the day, `/`, two of the month, `/`, four of the
year, a space, and two digits each of hour, minute and second separated by `:`,
so that `/` is at indices 2 and 5, the space at 10, `:` at 13 and 16, and a
decimal digit everywhere else. -/
theorem get_string_fixed_width (hw : LPC) (hr : clock_in_range hw) :
    ∃ s : List Char,
      (mbed_rtc_get (.str "*s".toList) hw).1 = .value (.str s) ∧
      s = [digit_char (hw.DOM / 10), digit_char (hw.DOM % 10), '/',
           digit_char (hw.MONTH / 10), digit_char (hw.MONTH % 10), '/',
           digit_char (hw.YEAR / 1000), digit_char (hw.YEAR / 100 % 10),
           digit_char (hw.YEAR / 10 % 10), digit_char (hw.YEAR % 10), ' ',
           digit_char (hw.HOUR / 10), digit_char (hw.HOUR % 10), ':',
           digit_char (hw.MIN / 10), digit_char (hw.MIN % 10), ':',
           digit_char (hw.SEC / 10), digit_char (hw.SEC % 10)] ∧
      s.length = 19 ∧
      ∀ (i : Nat) (c : Char), s.get? i = some c →
        (i = 2 ∨ i = 5 → c = '/') ∧ (i = 10 → c = ' ') ∧ (i = 13 ∨ i = 16 → c = ':') ∧
        (i ≠ 2 → i ≠ 5 → i ≠ 10 → i ≠ 13 → i ≠ 16 → isdigit c = true) := by
  refine ⟨_, get_string_result hw hr, sprintf_in_range hw hr, ?_, ?_⟩
  · rw [sprintf_in_range hw hr]
    rfl
  · rw [sprintf_in_range hw hr]
    obtain ⟨⟨_, h1⟩, ⟨_, h2⟩, h3, h4, h5, h6⟩ := hr
    intro i c hc
    have hd : ∀ k, k < 10 → isdigit (digit_char k) = true := fun k hk => (digit_char_spec k hk).1
    have hi : i < 19 := by
      by_contra hge
      have hnone := List.get?_eq_none.2 (show
        [digit_char (hw.DOM / 10), digit_char (hw.DOM % 10), '/',
           digit_char (hw.MONTH / 10), digit_char (hw.MONTH % 10), '/',
           digit_char (hw.YEAR / 1000), digit_char (hw.YEAR / 100 % 10),
           digit_char (hw.YEAR / 10 % 10), digit_char (hw.YEAR % 10), ' ',
           digit_char (hw.HOUR / 10), digit_char (hw.HOUR % 10), ':',
           digit_char (hw.MIN / 10), digit_char (hw.MIN % 10), ':',
           digit_char (hw.SEC / 10), digit_char (hw.SEC % 10)].length ≤ i by
        simp only [List.length_cons, List.length_nil]
        omega)
      rw [hnone] at hc
      cases hc
    interval_cases i <;> simp only [List.get?_cons_zero, List.get?_cons_succ,
      Option.some.injEq] at hc <;> subst hc <;>
      first
      | (refine ⟨fun h => ?_, fun h => ?_, fun h => ?_, fun _ _ _ _ _ => hd _ (by omega)⟩ <;> omega)
      | (refine ⟨fun _ => rfl, fun h => ?_, fun h => ?_, fun h => ?_⟩ <;> omega)
      | (refine ⟨fun h => ?_, fun _ => rfl, fun h => ?_, fun h => ?_⟩ <;> omega)
      | (refine ⟨fun h => ?_, fun h => ?_, fun _ => rfl, fun h => ?_⟩ <;> omega)

/-- C14 at the clock 01/01/2000 01:01:01. -/
theorem get_string_fixed_width_witness :
    ∃ s : List Char,
      (mbed_rtc_get (.str "*s".toList) sample_hw).1 = .value (.str s) ∧
      s = "01/01/2000 01:01:01".toList ∧ s.length = 19 := by
  obtain ⟨s, h1, h2, h3, _⟩ := get_string_fixed_width sample_hw (by decide)
  exact ⟨s, h1, by rw [h2]; decide, h3⟩

/-- The selector of `get`: `get(f)` leaves the hardware as it was for every
selector `f`; it raises an error exactly when `f` is neither `*s` nor `*t`, and the error is then
`invalid format`; for `*t` it returns the record form; and when the clock
registers are inside their ranges, so that the string form fits `buff`, it
returns a value exactly when `f` is `*s` or `*t`, the string form for `*s`. -/
theorem get_selector (f : List Char) (hw : LPC) :
    (mbed_rtc_get (.str f) hw).2 = hw ∧
    ((∃ e, (mbed_rtc_get (.str f) hw).1 = .error e) ↔
      (f ≠ "*s".toList ∧ f ≠ "*t".toList)) ∧
    (f ≠ "*s".toList → f ≠ "*t".toList →
      (mbed_rtc_get (.str f) hw).1 = .error (.error "invalid format")) ∧
    (f = "*t".toList →
      (mbed_rtc_get (.str f) hw).1 =
        .value (.table (get_fields (platform_rtc_get hw) (List.range 6) lua_newtable))) ∧
    (clock_in_range hw →
      ((∃ v, (mbed_rtc_get (.str f) hw).1 = .value v) ↔
        (f = "*s".toList ∨ f = "*t".toList)) ∧
      (f = "*s".toList →
        (mbed_rtc_get (.str f) hw).1 =
          .value (.str (sprintf_datetime hw.DOM hw.MONTH hw.YEAR hw.HOUR hw.MIN hw.SEC)))) := by
  have hst : "*t".toList ≠ "*s".toList := by decide
  have hbad : f ≠ "*s".toList → f ≠ "*t".toList →
      (mbed_rtc_get (.str f) hw).1 = .error (.error "invalid format") := by
    intro h1 h2
    simp only [mbed_rtc_get, h1, h2, if_false]
  have htab : f = "*t".toList →
      (mbed_rtc_get (.str f) hw).1 =
        .value (.table (get_fields (platform_rtc_get hw) (List.range 6) lua_newtable)) := by
    intro h
    subst h
    simp only [mbed_rtc_get, hst, if_false, if_true]
  have hnoerr : f = "*s".toList → ¬ ∃ e, (mbed_rtc_get (.str f) hw).1 = .error e := by
    intro h
    subst h
    rintro ⟨e, he⟩
    simp only [mbed_rtc_get, if_true] at he
    split at he <;> cases he
  refine ⟨?_, ⟨?_, ?_⟩, hbad, htab, ?_⟩
  · simp only [mbed_rtc_get]
    split_ifs <;> rfl
  · rintro ⟨e, he⟩
    refine ⟨fun h => hnoerr h ⟨e, he⟩, fun h => ?_⟩
    rw [htab h] at he
    cases he
  · rintro ⟨h1, h2⟩
    exact ⟨_, hbad h1 h2⟩
  · intro hr
    have hstr : f = "*s".toList →
        (mbed_rtc_get (.str f) hw).1 =
          .value (.str (sprintf_datetime hw.DOM hw.MONTH hw.YEAR hw.HOUR hw.MIN hw.SEC)) := by
      intro h
      subst h
      exact get_string_result hw hr
    refine ⟨⟨?_, ?_⟩, hstr⟩
    · rintro ⟨v, hv⟩
      by_contra hne
      rw [not_or] at hne
      rw [hbad hne.1 hne.2] at hv
      cases hv
    · rintro (h | h)
      · exact ⟨_, hstr h⟩
      · exact ⟨_, htab h⟩

/-- The selector of `get` at `*s`, `*t` and `*x`, the clock reading 01/01/2000
01:01:01. -/
theorem get_selector_witness :
    (mbed_rtc_get (.str "*s".toList) sample_hw).1 =
      .value (.str (sprintf_datetime 1 1 2000 1 1 1)) ∧
    (∃ v, (mbed_rtc_get (.str "*t".toList) sample_hw).1 = .value v) ∧
    (mbed_rtc_get (.str "*x".toList) sample_hw).1 = .error (.error "invalid format") ∧
    (mbed_rtc_get (.str "*x".toList) sample_hw).2 = sample_hw :=
  ⟨((get_selector "*s".toList sample_hw).2.2.2.2 (by decide)).2 rfl,
   ((get_selector "*t".toList sample_hw).2.2.2.2 (by decide)).1.2 (Or.inr rfl),
   (get_selector "*x".toList sample_hw).2.2.1 (by decide) (by decide),
   (get_selector "*x".toList sample_hw).1⟩

/-- C15, on the code: `set` given the string `01/01/10000 00:00:00` succeeds and
leaves 10000 in the year register; in that state the date and time take 20
characters, one more than the 19 that fit `buff` with the terminator, so that
`get("*s")` ends with `sprintf` writing past the end of `buff` and returns no
value, although the selector is `*s`. -/
theorem get_string_overflows_buff :
    (mbed_rtc_set (.str "01/01/10000 00:00:00".toList) sample_hw).err = none ∧
    year10000_hw.YEAR = 10000 ∧
    sprintf_datetime year10000_hw.DOM year10000_hw.MONTH year10000_hw.YEAR
      year10000_hw.HOUR year10000_hw.MIN year10000_hw.SEC = "01/01/10000 00:00:00".toList ∧
    (sprintf_datetime year10000_hw.DOM year10000_hw.MONTH year10000_hw.YEAR
      year10000_hw.HOUR year10000_hw.MIN year10000_hw.SEC).length = 20 ∧
    (mbed_rtc_get (.str "*s".toList) year10000_hw).1 = .overflow ∧
    ¬ ∃ v, (mbed_rtc_get (.str "*s".toList) year10000_hw).1 = .value v := by
  have hov : (mbed_rtc_get (.str "*s".toList) year10000_hw).1 = .overflow := by
    have hlen : ¬ (sprintf_datetime year10000_hw.DOM year10000_hw.MONTH year10000_hw.YEAR
        year10000_hw.HOUR year10000_hw.MIN year10000_hw.SEC).length < 20 := by decide
    simp only [mbed_rtc_get, platform_rtc_get, List.getD_cons_zero, List.getD_cons_succ,
      if_true, hlen, if_false]
  refine ⟨by decide, by decide, by decide, by decide, hov, ?_⟩
  rintro ⟨v, hv⟩
  rw [hov] at hv
  cases hv

/-! ## The record form -/

theorem get_selector_table (hw : LPC) :
    (mbed_rtc_get (.str "*t".toList) hw).1 =
      .value (.table (get_fields (platform_rtc_get hw) (List.range 6) lua_newtable)) := by
  have hst : "*t".toList ≠ "*s".toList := by decide
  simp only [mbed_rtc_get, hst, if_false, if_true]

/-- The record `get("*t")` builds holds, under the name of field `i`, the value
read from the register of field `i`. -/
theorem get_fields_lookup (vals : List Int) (i : Nat) (hi : i < 6) :
    get_fields vals (List.range 6) lua_newtable (mbed_datetime_names.getD i "") =
      .number (vals.getD i (-1)) := by
  have h6 : List.range 6 = [0, 1, 2, 3, 4, 5] := by decide
  rw [h6]
  interval_cases i <;>
    simp [get_fields, lua_settable, mbed_datetime_names]

/-- The record `get("*t")` builds has the six names as its keys and no other. -/
theorem get_fields_keys (vals : List Int) (k : String) :
    get_fields vals (List.range 6) lua_newtable k ≠ .nil ↔ k ∈ mbed_datetime_names := by
  have h6 : List.range 6 = [0, 1, 2, 3, 4, 5] := by decide
  rw [h6]
  simp only [get_fields, lua_settable, mbed_datetime_names, List.getD_cons_zero,
    List.getD_cons_succ, lua_newtable, List.mem_cons, List.mem_singleton]
  by_cases h5 : k = "sec"
  · simp [h5]
  · by_cases h4 : k = "min"
    · simp [h4]
    · by_cases h3 : k = "hour"
      · simp [h3]
      · by_cases h2 : k = "year"
        · simp [h2]
        · by_cases h1 : k = "month"
          · simp [h1]
          · by_cases h0 : k = "day"
            · simp [h0]
            · simp [h0, h1, h2, h3, h4, h5, List.mem_nil_iff]

/-- The values read from clock registers inside their ranges pass the range
check of the record branch of `set`. -/
theorem platform_rtc_get_in_range (hw : LPC) (hr : clock_in_range hw) (i : Nat) (hi : i < 6) :
    mbed_datetime_min.getD i 0 ≤ (platform_rtc_get hw).getD i (-1) ∧
    (platform_rtc_get hw).getD i (-1) ≤ mbed_datetime_max.getD i 0 := by
  obtain ⟨⟨h0, h1⟩, ⟨h2, h3⟩, h4, h5, h6, h7⟩ := hr
  interval_cases i <;>
    simp [platform_rtc_get, mbed_datetime_min, mbed_datetime_max] <;> omega

/-- C13: when the six clock registers are inside their ranges, `get("*t")`
returns a record whose keys are exactly `day`, `month`, `year`, `hour`, `min` and
`sec`, each mapped to the value of its register, and `set` given that record
succeeds, from whatever state, and leaves those six values in the six clock
registers. -/
theorem record_round_trip (hw : LPC) (hr : clock_in_range hw) :
    ∃ T : LuaTable,
      (mbed_rtc_get (.str "*t".toList) hw).1 = .value (.table T) ∧
      (∀ k, T k ≠ .nil ↔ k ∈ ["day", "month", "year", "hour", "min", "sec"]) ∧
      T "day" = .number hw.DOM ∧ T "month" = .number hw.MONTH ∧
      T "year" = .number hw.YEAR ∧ T "hour" = .number hw.HOUR ∧
      T "min" = .number hw.MIN ∧ T "sec" = .number hw.SEC ∧
      ∀ hw2 : LPC,
        (mbed_rtc_set (.table T) hw2).err = none ∧
        (mbed_rtc_set (.table T) hw2).hw.DOM = hw.DOM ∧
        (mbed_rtc_set (.table T) hw2).hw.MONTH = hw.MONTH ∧
        (mbed_rtc_set (.table T) hw2).hw.YEAR = hw.YEAR ∧
        (mbed_rtc_set (.table T) hw2).hw.HOUR = hw.HOUR ∧
        (mbed_rtc_set (.table T) hw2).hw.MIN = hw.MIN ∧
        (mbed_rtc_set (.table T) hw2).hw.SEC = hw.SEC := by
  have look := get_fields_lookup (platform_rtc_get hw)
  have hok : ∀ i ∈ List.range 6, ∀ v,
      get_fields (platform_rtc_get hw) (List.range 6) lua_newtable
        (mbed_datetime_names.getD i "") = .number v →
      mbed_datetime_min.getD i 0 ≤ v ∧ v ≤ mbed_datetime_max.getD i 0 := by
    intro i hi v hv
    have hi6 := List.mem_range.1 hi
    have hv2 := number_unique _ (look i hi6) hv
    subst hv2
    exact platform_rtc_get_in_range hw hr i hi6
  have hreg : ∀ (hw2 : LPC) (i : Nat), i < 6 →
      (((mbed_rtc_set (.table
        (get_fields (platform_rtc_get hw) (List.range 6) lua_newtable)) hw2).hw.read
          (mbed_datetime_regs.getD i .DOM) : Nat) : Int) = (platform_rtc_get hw).getD i (-1) :=
    fun hw2 i hi => set_fields_written _ (List.range 6) hw2 (fun k hk => List.mem_range.1 hk)
      (List.nodup_range 6) hok i (List.mem_range.2 hi) _ (look i hi)
  refine ⟨get_fields (platform_rtc_get hw) (List.range 6) lua_newtable,
    (get_selector_table hw), get_fields_keys _, look 0 (by decide), look 1 (by decide),
    look 2 (by decide), look 3 (by decide), look 4 (by decide), look 5 (by decide), ?_⟩
  intro hw2
  refine ⟨(set_fields_err_none _ (List.range 6) hw2).2 hok, ?_, ?_, ?_, ?_, ?_, ?_⟩
  · have h : (((mbed_rtc_set (.table (get_fields (platform_rtc_get hw) (List.range 6)
        lua_newtable)) hw2).hw.DOM : Nat) : Int) = (hw.DOM : Int) := hreg hw2 0 (by decide)
    exact_mod_cast h
  · have h : (((mbed_rtc_set (.table (get_fields (platform_rtc_get hw) (List.range 6)
        lua_newtable)) hw2).hw.MONTH : Nat) : Int) = (hw.MONTH : Int) := hreg hw2 1 (by decide)
    exact_mod_cast h
  · have h : (((mbed_rtc_set (.table (get_fields (platform_rtc_get hw) (List.range 6)
        lua_newtable)) hw2).hw.YEAR : Nat) : Int) = (hw.YEAR : Int) := hreg hw2 2 (by decide)
    exact_mod_cast h
  · have h : (((mbed_rtc_set (.table (get_fields (platform_rtc_get hw) (List.range 6)
        lua_newtable)) hw2).hw.HOUR : Nat) : Int) = (hw.HOUR : Int) := hreg hw2 3 (by decide)
    exact_mod_cast h
  · have h : (((mbed_rtc_set (.table (get_fields (platform_rtc_get hw) (List.range 6)
        lua_newtable)) hw2).hw.MIN : Nat) : Int) = (hw.MIN : Int) := hreg hw2 4 (by decide)
    exact_mod_cast h
  · have h : (((mbed_rtc_set (.table (get_fields (platform_rtc_get hw) (List.range 6)
        lua_newtable)) hw2).hw.SEC : Nat) : Int) = (hw.SEC : Int) := hreg hw2 5 (by decide)
    exact_mod_cast h

/-- C13 at the clock 01/01/2000 01:01:01, the record being given back to `set`
while the clock is stopped and reads the same. -/
theorem record_round_trip_witness :
    ∃ T : LuaTable,
      (mbed_rtc_get (.str "*t".toList) sample_hw).1 = .value (.table T) ∧
      T "year" = .number 2000 ∧ T "minute" = .nil ∧
      (mbed_rtc_set (.table T) stopped_hw).err = none ∧
      (mbed_rtc_set (.table T) stopped_hw).hw.YEAR = 2000 := by
  obtain ⟨T, h1, h2, _, _, h5, _, _, _, h9⟩ := record_round_trip sample_hw (by decide)
  refine ⟨T, h1, h5, ?_, (h9 stopped_hw).1, (h9 stopped_hw).2.2.2.1⟩
  by_contra hne
  exact absurd ((h2 "minute").1 hne) (by decide)

/-! ## The shape of an accepted string -/

theorem skip_space_spaces (ws rest : List Char) (hws : ∀ c ∈ ws, isspace c = true) :
    skip_space (ws ++ rest) = skip_space rest := by
  induction ws with
  | nil => rfl
  | cons c cs ih =>
    have hc := hws c (List.mem_cons_self _ _)
    simp only [List.cons_append, skip_space, hc, if_true]
    exact ih (fun x hx => hws x (List.mem_cons_of_mem _ hx))

/-- The input is a run of white space followed by what `skip_space` leaves, and
what it leaves does not start with white space. -/
theorem skip_space_split (inp : List Char) :
    (∃ ws, inp = ws ++ skip_space inp ∧ ∀ c ∈ ws, isspace c = true) ∧
    ∀ c cs, skip_space inp = c :: cs → isspace c = false := by
  induction inp with
  | nil =>
    refine ⟨⟨[], rfl, by simp⟩, ?_⟩
    intro c cs h
    simp [skip_space] at h
  | cons a as ih =>
    by_cases ha : isspace a = true
    · obtain ⟨⟨ws, h1, h2⟩, h3⟩ := ih
      have e : skip_space (a :: as) = skip_space as := by simp only [skip_space, ha, if_true]
      rw [e]
      refine ⟨⟨a :: ws, by rw [List.cons_append, ← h1], ?_⟩, h3⟩
      intro c hc
      rcases List.mem_cons.1 hc with rfl | hc
      · exact ha
      · exact h2 c hc
    · have e : skip_space (a :: as) = a :: as := by simp only [skip_space, ha]; rfl
      rw [e]
      refine ⟨⟨[], rfl, by simp⟩, ?_⟩
      intro c cs h
      cases h
      simpa using ha

/-- The input is the run of digits `scan_digits` reads followed by what it
leaves. -/
theorem scan_digits_split (l : List Char) (acc : Nat) :
    ∃ ds, l = ds ++ (scan_digits acc l).2 ∧ ∀ c ∈ ds, isdigit c = true := by
  induction l generalizing acc with
  | nil => exact ⟨[], rfl, by simp⟩
  | cons a as ih =>
    by_cases ha : isdigit a = true
    · obtain ⟨ds, h1, h2⟩ := ih (acc * 10 + (a.toNat - 48))
      rw [scan_digits_cons, if_pos ha]
      refine ⟨a :: ds, by rw [List.cons_append, ← h1], ?_⟩
      intro c hc
      rcases List.mem_cons.1 hc with rfl | hc
      · exact ha
      · exact h2 c hc
    · rw [scan_digits_cons, if_neg ha]
      exact ⟨[], rfl, by simp⟩

/-- What `scan_digits` reads from an input that starts with a digit is not
empty. -/
theorem scan_digits_split_cons (b : Char) (bs : List Char) (hb : isdigit b = true) :
    ∃ ds, b :: bs = (b :: ds) ++ (scan_digits 0 (b :: bs)).2 ∧
      ∀ c ∈ b :: ds, isdigit c = true := by
  obtain ⟨ds, h1, h2⟩ := scan_digits_split bs (0 * 10 + (b.toNat - 48))
  rw [scan_digits_cons, if_pos hb]
  refine ⟨ds, by rw [List.cons_append, ← h1], ?_⟩
  intro c hc
  rcases List.mem_cons.1 hc with rfl | hc
  · exact hb
  · exact h2 c hc

theorem number_token_digits (c : Char) (ds : List Char) (hc : isspace c = false)
    (hsign : ¬ (c = '-' ∨ c = '+')) (hds : ∀ x ∈ c :: ds, isdigit x = true) :
    number_token (c :: ds) = true := by
  have e : skip_space (c :: ds) = c :: ds := by simp only [skip_space, hc]; rfl
  unfold number_token
  rw [e]
  simp only [hsign, if_false, List.isEmpty_cons, Bool.not_false, Bool.true_and, List.all_eq_true]
  exact hds

theorem number_token_signed (c b : Char) (ds : List Char) (hc : isspace c = false)
    (hsign : c = '-' ∨ c = '+') (hds : ∀ x ∈ b :: ds, isdigit x = true) :
    number_token (c :: b :: ds) = true := by
  have e : skip_space (c :: b :: ds) = c :: b :: ds := by simp only [skip_space, hc]; rfl
  unfold number_token
  rw [e]
  simp only [hsign, if_true, List.isEmpty_cons, Bool.not_false, Bool.true_and, List.all_eq_true]
  exact hds

theorem number_token_spaces (ws tok : List Char) (hws : ∀ c ∈ ws, isspace c = true) :
    number_token (ws ++ tok) = number_token tok := by
  unfold number_token
  rw [skip_space_spaces ws tok hws]

/-- What `%d` reads is a number token, and the input is that token followed by
what `%d` leaves. -/
theorem scan_int_token (inp r : List Char) (v : Int) (h : scan_int inp = some (v, r)) :
    ∃ tok, inp = tok ++ r ∧ number_token tok = true := by
  obtain ⟨⟨ws, hsplit, hws⟩, hhead⟩ := skip_space_split inp
  unfold scan_int at h
  cases hs : skip_space inp with
  | nil => simp [hs] at h
  | cons c cs =>
    rw [hs] at h hsplit
    have hc := hhead c cs hs
    by_cases hsign : c = '-' ∨ c = '+'
    · simp only [hsign, if_true] at h
      cases cs with
      | nil => simp at h
      | cons b bs =>
        by_cases hb : isdigit b = true
        · simp only [hb, if_true, Option.some.injEq, Prod.mk.injEq] at h
          obtain ⟨ds, h1, h2⟩ := scan_digits_split_cons b bs hb
          rw [h.2] at h1
          refine ⟨ws ++ c :: b :: ds, ?_, ?_⟩
          · rw [hsplit, h1]
            simp
          · rw [number_token_spaces ws _ hws]
            exact number_token_signed c b ds hc hsign h2
        · simp [hb] at h
    · simp only [hsign, if_false] at h
      by_cases hb : isdigit c = true
      · simp only [hb, if_true, Option.some.injEq, Prod.mk.injEq] at h
        obtain ⟨ds, h1, h2⟩ := scan_digits_split_cons c cs hb
        rw [h.2] at h1
        refine ⟨ws ++ c :: ds, ?_, ?_⟩
        · rw [hsplit, h1]
          simp
        · rw [number_token_spaces ws _ hws]
          exact number_token_digits c ds hc hsign h2
      · simp [hb] at h

theorem scan_run_int (ds : List Directive) (inp r : List Char) (vs : List Int)
    (h : scan_run (.int :: ds) inp = some (vs, r)) :
    ∃ tok r1 ws, inp = tok ++ r1 ∧ number_token tok = true ∧ scan_run ds r1 = some (ws, r) := by
  rw [scan_run_cons] at h
  simp only [Directive.step] at h
  cases hi : scan_int inp with
  | none => simp [hi] at h
  | some p =>
    obtain ⟨v, r1⟩ := p
    simp only [hi] at h
    obtain ⟨tok, h1, h2⟩ := scan_int_token inp r1 v hi
    cases hr : scan_run ds r1 with
    | none => simp [hr] at h
    | some q =>
      obtain ⟨ws, r2⟩ := q
      simp only [hr, Option.some.injEq, Prod.mk.injEq] at h
      exact ⟨tok, r1, ws, h1, h2, by rw [← h.2, hr]⟩

theorem scan_run_lit (ch : Char) (ds : List Directive) (inp r : List Char) (vs : List Int)
    (h : scan_run (.lit ch :: ds) inp = some (vs, r)) :
    ∃ r1 ws, inp = ch :: r1 ∧ scan_run ds r1 = some (ws, r) := by
  rw [scan_run_cons] at h
  simp only [Directive.step] at h
  cases inp with
  | nil => simp [scan_lit] at h
  | cons c cs =>
    by_cases hc : c = ch
    · simp only [scan_lit, hc, if_true] at h
      cases hr : scan_run ds cs with
      | none => simp [hr] at h
      | some q =>
        obtain ⟨ws, r2⟩ := q
        simp only [hr, Option.some.injEq, Prod.mk.injEq] at h
        exact ⟨cs, ws, by rw [hc], by rw [← h.2, hr]⟩
    · simp [scan_lit, hc] at h

theorem scan_run_space (ds : List Directive) (inp r : List Char) (vs : List Int)
    (h : scan_run (.space :: ds) inp = some (vs, r)) :
    ∃ sp r1 ws, inp = sp ++ r1 ∧ (∀ c ∈ sp, isspace c = true) ∧
      scan_run ds r1 = some (ws, r) := by
  rw [scan_run_cons] at h
  simp only [Directive.step] at h
  obtain ⟨⟨sp, h1, h2⟩, _⟩ := skip_space_split inp
  cases hr : scan_run ds (skip_space inp) with
  | none => simp [hr] at h
  | some q =>
    obtain ⟨ws, r2⟩ := q
    simp only [hr, Option.some.injEq, Prod.mk.injEq] at h
    exact ⟨sp, skip_space inp, ws, h1, h2, by rw [← h.2, hr]⟩

/-- C12, on the code: the parser accepts strings that are not of the strict
shape: one with a leading space, a sign and two spaces between date and time, and
one with no space at all between the date and a signed hour. -/
theorem parser_accepts_loose_strings :
    parse_datetime " +15/06/2024  09:30:45".toList = some [15, 6, 2024, 9, 30, 45] ∧
    spec_strict_shape " +15/06/2024  09:30:45".toList = false ∧
    parse_datetime "15/06/2024+09:30:45".toList = some [15, 6, 2024, 9, 30, 45] ∧
    spec_strict_shape "15/06/2024+09:30:45".toList = false ∧
    spec_strict_shape "15/06/2024 09:30:45".toList = true := by
  decide

/-- C12 as amended: every string the parser accepts is six number tokens with
`/` after the first and the second and `:` after the fourth and the fifth, and
nothing else; a number token is any amount of white space, an optional sign, and
one or more decimal digits. -/
theorem accepted_string_shape (s : List Char) (hacc : parse_datetime s ≠ none) :
    ∃ t1 t2 t3 t4 t5 t6 : List Char,
      s = t1 ++ '/' :: (t2 ++ '/' :: (t3 ++ (t4 ++ ':' :: (t5 ++ ':' :: t6)))) ∧
      number_token t1 = true ∧ number_token t2 = true ∧ number_token t3 = true ∧
      number_token t4 = true ∧ number_token t5 = true ∧ number_token t6 = true := by
  unfold parse_datetime sscanf_datetime at hacc
  cases hrun : scan_run datetime_format s with
  | none => simp [hrun] at hacc
  | some p =>
    obtain ⟨vs, r⟩ := p
    simp only [hrun, ne_eq, ite_eq_left_iff, not_not, reduceCtorEq, imp_false] at hacc
    unfold datetime_format at hrun
    obtain ⟨t1, r1, _, e1, k1, hrun⟩ := scan_run_int _ _ _ _ hrun
    obtain ⟨r2, _, e2, hrun⟩ := scan_run_lit _ _ _ _ _ hrun
    obtain ⟨t2, r3, _, e3, k2, hrun⟩ := scan_run_int _ _ _ _ hrun
    obtain ⟨r4, _, e4, hrun⟩ := scan_run_lit _ _ _ _ _ hrun
    obtain ⟨t3, r5, _, e5, k3, hrun⟩ := scan_run_int _ _ _ _ hrun
    obtain ⟨sp, r6, _, e6, ksp, hrun⟩ := scan_run_space _ _ _ _ hrun
    obtain ⟨t4, r7, _, e7, k4, hrun⟩ := scan_run_int _ _ _ _ hrun
    obtain ⟨r8, _, e8, hrun⟩ := scan_run_lit _ _ _ _ _ hrun
    obtain ⟨t5, r9, _, e9, k5, hrun⟩ := scan_run_int _ _ _ _ hrun
    obtain ⟨r10, _, e10, hrun⟩ := scan_run_lit _ _ _ _ _ hrun
    obtain ⟨t6, r11, _, e11, k6, hrun⟩ := scan_run_int _ _ _ _ hrun
    simp only [scan_run, Option.some.injEq, Prod.mk.injEq] at hrun
    obtain ⟨_, hr⟩ := hrun
    subst hr
    have hs : s = t1 ++ '/' :: (t2 ++ '/' :: (t3 ++ ((sp ++ t4) ++ ':' ::
        (t5 ++ ':' :: (t6 ++ r11))))) := by
      rw [e1, e2, e3, e4, e5, e6, e7, e8, e9, e10, e11]
      simp
    have hnil : r11 = [] := by
      have hlen := congrArg List.length hs
      simp only [List.length_append, List.length_cons] at hlen
      apply List.eq_nil_of_length_eq_zero
      omega
    rw [hnil, List.append_nil] at hs
    exact ⟨t1, t2, t3, sp ++ t4, t5, t6, hs, k1, k2, k3,
      by rw [number_token_spaces sp t4 ksp]; exact k4, k5, k6⟩

/-- C12 as amended, at a string with a leading space, a sign and two spaces
between date and time. -/
theorem accepted_string_shape_witness :
    ∃ t1 t2 t3 t4 t5 t6 : List Char,
      " +15/06/2024  09:30:45".toList =
        t1 ++ '/' :: (t2 ++ '/' :: (t3 ++ (t4 ++ ':' :: (t5 ++ ':' :: t6)))) ∧
      number_token t1 = true ∧ number_token t2 = true ∧ number_token t3 = true ∧
      number_token t4 = true ∧ number_token t5 = true ∧ number_token t6 = true :=
  accepted_string_shape " +15/06/2024  09:30:45".toList (by decide)

end MbedRtc
